import Mathlib

/-!
FreeRTOS-obj: bounded queue and task lifecycle.

A shallow embedding of `wrapper/include/queue.hpp` and `wrapper/include/task.hpp`.

* The two FreeRTOS queues that `Queue<T>` uses as counting permits are modelled by their
  length and message count; the `bool` flags they carry are never inspected by the source.
* A call is modelled as it runs when no other context touches the queue while it is in
  flight.  A blocking primitive that finds no permit either times out (failure) or, for an
  indefinite wait, never returns (`none`).
* Machine integers are `Nat`; `in`, `out` and the message counts never exceed `size`, so no
  `size_t` arithmetic in the source can wrap.
* `ExitFromTask` and `RunTask` loop on flags that another context writes.  What the other
  context does is an oracle indexed by the loop iteration, the loops carry fuel (`none` when
  it runs out), and the runtime calls issued are logged in order.
* `stepSystem` runs the three primitives of `Push` and of `Pop` as separate atomic steps of
  any number of calls in flight.
-/

namespace freertos_obj

/-! ## The runtime primitives consumed by the queue -/

abbrev TickType_t := Nat
abbrev BaseType_t := Int
abbrev UBaseType_t := Nat

def pdPASS : BaseType_t := 1
def pdFAIL : BaseType_t := 0
def errQUEUE_FULL : BaseType_t := 0
def errQUEUE_EMPTY : BaseType_t := 0

/-- Modelled from the spec: the kernel configuration constants the sources refer to
(`FreeRTOSConfig.h` and `portmacro.h` are not part of the sources). -/
structure FreeRTOSConfig where
  portMAX_DELAY : TickType_t
  INCLUDE_vTaskSuspend : Bool
  INCLUDE_vTaskDelete : Bool
  pdMS_TO_TICKS : Nat → TickType_t

/-- Modelled from the spec: a bounded counting permit object of the runtime, "holding a
non-negative count", created "with an initial and maximum count".  For a FreeRTOS queue the
count is the number of stored messages and the maximum is the queue length. -/
structure QueueHandle_t where
  uxLength : Nat
  uxMessagesWaiting : Nat
deriving DecidableEq, Repr

/-- Modelled from the spec: `xQueueCreate(uxQueueLength, uxItemSize)` returns an empty queue
of the given length. -/
def xQueueCreate (uxQueueLength : Nat) : QueueHandle_t :=
  { uxLength := uxQueueLength, uxMessagesWaiting := 0 }

/-- Whether a wait of `xTicksToWait` ticks never times out. -/
def waitsForever (k : FreeRTOSConfig) (xTicksToWait : TickType_t) : Bool :=
  k.INCLUDE_vTaskSuspend && xTicksToWait == k.portMAX_DELAY

/-- Modelled from the spec: `xQueueSendToBack(xQueue, &flag, xTicksToWait)` stores one
message when the queue is not full.  On a full queue it fails at once for a zero wait,
fails after the timeout for a finite wait, and never returns (`none`) for an indefinite
wait, since nothing else runs in between. -/
def xQueueSendToBack (k : FreeRTOSConfig) (xQueue : QueueHandle_t)
    (xTicksToWait : TickType_t) : Option (BaseType_t × QueueHandle_t) :=
  if xQueue.uxMessagesWaiting < xQueue.uxLength then
    some (pdPASS, { xQueue with uxMessagesWaiting := xQueue.uxMessagesWaiting + 1 })
  else if xTicksToWait = 0 then
    some (errQUEUE_FULL, xQueue)
  else if waitsForever k xTicksToWait then
    none
  else
    some (errQUEUE_FULL, xQueue)

/-- Modelled from the spec: `xQueueSendToBackFromISR(xQueue, &flag, NULL)`, the interrupt
variant, never waits. -/
def xQueueSendToBackFromISR (xQueue : QueueHandle_t) : BaseType_t × QueueHandle_t :=
  if xQueue.uxMessagesWaiting < xQueue.uxLength then
    (pdPASS, { xQueue with uxMessagesWaiting := xQueue.uxMessagesWaiting + 1 })
  else
    (errQUEUE_FULL, xQueue)

/-- Modelled from the spec: `xQueueReceive(xQueue, &flag, xTicksToWait)` removes one message
when the queue is not empty; on an empty queue it behaves like `xQueueSendToBack` on a full
one. -/
def xQueueReceive (k : FreeRTOSConfig) (xQueue : QueueHandle_t)
    (xTicksToWait : TickType_t) : Option (BaseType_t × QueueHandle_t) :=
  if 0 < xQueue.uxMessagesWaiting then
    some (pdPASS, { xQueue with uxMessagesWaiting := xQueue.uxMessagesWaiting - 1 })
  else if xTicksToWait = 0 then
    some (errQUEUE_EMPTY, xQueue)
  else if waitsForever k xTicksToWait then
    none
  else
    some (errQUEUE_EMPTY, xQueue)

/-- Modelled from the spec: `uxQueueMessagesWaiting(xQueue)`. -/
def uxQueueMessagesWaiting (xQueue : QueueHandle_t) : Nat :=
  xQueue.uxMessagesWaiting

/-- Modelled from the spec: `uxQueueSpacesAvailable(xQueue)`. -/
def uxQueueSpacesAvailable (xQueue : QueueHandle_t) : Nat :=
  xQueue.uxLength - xQueue.uxMessagesWaiting

/-! ## The element type -/

/-- What `Queue<T>` needs from its element type `T`: the value-initialised object `T()`,
the trait `is_move_assignable<T>::value`, the state a moved-from object is left in, and the
element a default-initialised array `new T[n]` holds at each index (`T()` for a class type,
indeterminate for a scalar type). -/
class CppValue (T : Type) where
  T_default : T
  is_move_assignable : Bool
  moved_from : T → T
  new_element : Nat → T

instance : CppValue Nat where
  T_default := 0
  is_move_assignable := true
  moved_from := fun _ => 0
  new_element := fun _ => 0

/-! ## `Queue<T>` -/

structure Queue (T : Type) where
  freertos_push_queue : QueueHandle_t
  freertos_pop_queue : QueueHandle_t
  size : Nat
  «in» : Nat
  out : Nat
  array_queue : List T
deriving DecidableEq, Repr

variable {T : Type}

/-- Constructor `Queue(const size_t size)`: both FreeRTOS queues are created empty, the
storage is `new T[size]`, both cursors are 0. -/
def mkQueue [CppValue T] (size : Nat) : Queue T :=
  { freertos_push_queue := xQueueCreate size
    freertos_pop_queue := xQueueCreate size
    array_queue := (List.range size).map CppValue.new_element
    size := size
    «in» := 0
    out := 0 }

/-- Slot read `array_queue[i]`. -/
def slot [CppValue T] (q : Queue T) (i : Nat) : T :=
  q.array_queue.getD i CppValue.T_default

/-- Copy form of `PushFromCriticalSection(const T& item)`. -/
def PushFromCriticalSection (q : Queue T) (item : T) : Queue T :=
  let q1 := { q with array_queue := q.array_queue.set q.«in» item, «in» := q.«in» + 1 }
  if q1.«in» ≥ q1.size then { q1 with «in» := 0 } else q1

/-- Move form `PushFromCriticalSection(T&& item)`; also returns the caller's object after
the move. -/
def PushFromCriticalSectionMove [CppValue T] (q : Queue T) (item : T) : Queue T × T :=
  let q1 := { q with array_queue := q.array_queue.set q.«in» item, «in» := q.«in» + 1 }
  let item1 := CppValue.moved_from item
  if q1.«in» ≥ q1.size then ({ q1 with «in» := 0 }, item1) else (q1, item1)

/-- Source `PopFromCriticalSection(T& item)`; returns the queue and the caller's `item`. -/
def PopFromCriticalSection [CppValue T] (q : Queue T) (_item : T) : Queue T × T :=
  let (item1, q1) :=
    if CppValue.is_move_assignable T = true then
      (slot q q.out,
        { q with array_queue := q.array_queue.set q.out (CppValue.moved_from (slot q q.out)) })
    else
      (slot q q.out, q)
  let q2 := { q1 with array_queue := q1.array_queue.set q1.out CppValue.T_default }
  let q3 := { q2 with out := q2.out + 1 }
  if q3.out ≥ q3.size then ({ q3 with out := 0 }, item1) else (q3, item1)

/-- Copy form `Push(const T& item, TickType_t wait)`. -/
def Push (k : FreeRTOSConfig) (q : Queue T) (item : T) (wait : TickType_t) :
    Option (Bool × Queue T) :=
  match xQueueSendToBack k q.freertos_push_queue wait with
  | none => none
  | some (r, pushq) =>
    let success := decide (r = pdPASS)
    let q1 := { q with freertos_push_queue := pushq }
    if success = true then
      let q2 := PushFromCriticalSection q1 item
      match xQueueSendToBack k q2.freertos_pop_queue 0 with
      | none => none
      | some (_, popq) => some (success, { q2 with freertos_pop_queue := popq })
    else
      some (success, q1)

/-- Move form `Push(T&& item, TickType_t wait)`; the third component is the caller's object
after the call. -/
def PushMove [CppValue T] (k : FreeRTOSConfig) (q : Queue T) (item : T) (wait : TickType_t) :
    Option (Bool × Queue T × T) :=
  match xQueueSendToBack k q.freertos_push_queue wait with
  | none => none
  | some (r, pushq) =>
    let success := decide (r = pdPASS)
    let q1 := { q with freertos_push_queue := pushq }
    if success = true then
      let (q2, item1) := PushFromCriticalSectionMove q1 item
      match xQueueSendToBack k q2.freertos_pop_queue 0 with
      | none => none
      | some (_, popq) => some (success, { q2 with freertos_pop_queue := popq }, item1)
    else
      some (success, q1, item)

/-- Copy form `Push_FromISR(const T& item)`. -/
def Push_FromISR (q : Queue T) (item : T) : Bool × Queue T :=
  let (r, pushq) := xQueueSendToBackFromISR q.freertos_push_queue
  let success := decide (r = pdPASS)
  let q1 := { q with freertos_push_queue := pushq }
  if success = true then
    let q2 := PushFromCriticalSection q1 item
    let (_, popq) := xQueueSendToBackFromISR q2.freertos_pop_queue
    (success, { q2 with freertos_pop_queue := popq })
  else
    (success, q1)

/-- Move form `Push_FromISR(T&& item)`. -/
def Push_FromISRMove [CppValue T] (q : Queue T) (item : T) : Bool × Queue T × T :=
  let (r, pushq) := xQueueSendToBackFromISR q.freertos_push_queue
  let success := decide (r = pdPASS)
  let q1 := { q with freertos_push_queue := pushq }
  if success = true then
    let (q2, item1) := PushFromCriticalSectionMove q1 item
    let (_, popq) := xQueueSendToBackFromISR q2.freertos_pop_queue
    (success, { q2 with freertos_pop_queue := popq }, item1)
  else
    (success, q1, item)

/-- Source `Pop(T& item, TickType_t wait)`; the third component is the caller's `item`
after the call. -/
def Pop [CppValue T] (k : FreeRTOSConfig) (q : Queue T) (item : T) (wait : TickType_t) :
    Option (Bool × Queue T × T) :=
  match xQueueReceive k q.freertos_pop_queue wait with
  | none => none
  | some (r, popq) =>
    let success := decide (r = pdPASS)
    let q1 := { q with freertos_pop_queue := popq }
    if success = true then
      let (q2, item1) := PopFromCriticalSection q1 item
      match xQueueReceive k q2.freertos_push_queue 0 with
      | none => none
      | some (_, pushq) => some (success, { q2 with freertos_push_queue := pushq }, item1)
    else
      some (success, q1, item)

def ItemWaiting (q : Queue T) : Nat :=
  uxQueueMessagesWaiting q.freertos_pop_queue

def SpacesAvailable (q : Queue T) : Nat :=
  uxQueueSpacesAvailable q.freertos_push_queue

/-! ## Sequences of calls -/

/-- One call on a queue; `Pop` carries the value of the caller's variable before the call. -/
inductive Call (T : Type) where
  | Push (item : T) (wait : TickType_t)
  | PushMove (item : T) (wait : TickType_t)
  | Push_FromISR (item : T)
  | Push_FromISRMove (item : T)
  | Pop (item : T) (wait : TickType_t)
deriving DecidableEq, Repr

/-- What one completed call left behind: its return value, the caller's item after the call
and the queue after the call. -/
structure Outcome (T : Type) where
  call : Call T
  success : Bool
  item : T
  after : Queue T
deriving DecidableEq, Repr

/-- Run one call; `none` when the call never returns. -/
def runCall [CppValue T] (k : FreeRTOSConfig) (q : Queue T) : Call T → Option (Outcome T)
  | .Push item wait =>
    (Push k q item wait).map fun r => ⟨.Push item wait, r.1, item, r.2⟩
  | .PushMove item wait =>
    (PushMove k q item wait).map fun r => ⟨.PushMove item wait, r.1, r.2.2, r.2.1⟩
  | .Push_FromISR item =>
    let r := Push_FromISR q item
    some ⟨.Push_FromISR item, r.1, item, r.2⟩
  | .Push_FromISRMove item =>
    let r := Push_FromISRMove q item
    some ⟨.Push_FromISRMove item, r.1, r.2.2, r.2.1⟩
  | .Pop item wait =>
    (Pop k q item wait).map fun r => ⟨.Pop item wait, r.1, r.2.2, r.2.1⟩

/-- Run a sequence of calls one after the other, each to completion; `none` when one of
them never returns. -/
def runCalls [CppValue T] (k : FreeRTOSConfig) : Queue T → List (Call T) → Option (List (Outcome T))
  | _, [] => some []
  | q, c :: cs =>
    match runCall k q c with
    | none => none
    | some o =>
      match runCalls k o.after cs with
      | none => none
      | some os => some (o :: os)

/-- The item a push call offers; `none` for a pop. -/
def Call.pushItem : Call T → Option T
  | .Push item _ => some item
  | .PushMove item _ => some item
  | .Push_FromISR item => some item
  | .Push_FromISRMove item => some item
  | .Pop _ _ => none

/-- Whether the call is a `Pop`. -/
def Call.isPop : Call T → Bool
  | .Pop _ _ => true
  | _ => false

/-- The values accepted by the successful pushes, in call order. -/
def accepted (os : List (Outcome T)) : List T :=
  os.filterMap fun o => if o.success = true then o.call.pushItem else none

/-- The values delivered by the successful pops, in call order. -/
def delivered (os : List (Outcome T)) : List T :=
  os.filterMap fun o => if o.success = true ∧ o.call.isPop = true then some o.item else none

/-- The queue after the last of the completed calls `os` that started from `q`. -/
def lastState (q : Queue T) : List (Outcome T) → Queue T
  | [] => q
  | o :: os => lastState o.after os

/-! ## `TaskFreeRtos` -/

/-- The runtime calls that `ExitFromTask` and `RunTask` issue, in the order issued. -/
inductive RtosCall where
  /-- Runtime call `vTaskDelete(task_handle)`. -/
  | vTaskDelete_handle
  /-- Runtime call `vTaskDelete(NULL)`, issued by the task itself. -/
  | vTaskDelete_NULL
  /-- Runtime call `vTaskResume(task_handle)`, through `Resume()`. -/
  | vTaskResume
  /-- Runtime call `xTaskAbortDelay(task_handle)`, through `AbortDelay()`. -/
  | xTaskAbortDelay
  /-- Runtime call `uxTaskPriorityGet(task_handle)`, through `GetPriority()`. -/
  | uxTaskPriorityGet_handle
  /-- Runtime call `uxTaskPriorityGet(NULL)`, through `GetPriorityCurrentTask()`. -/
  | uxTaskPriorityGet_NULL
  /-- Runtime call `vTaskDelay(xTicksToDelay)`, through `Delay()`. -/
  | vTaskDelay (xTicksToDelay : TickType_t)
deriving DecidableEq, Repr

/-- The members of `TaskFreeRtos` that its code reads or writes, the static member
`scheduler_is_running`, and the runtime calls issued so far (oldest first). -/
structure TaskFreeRtos where
  task_terminated : Bool
  request_to_delete_task : Bool
  scheduler_is_running : Bool
  calls : List RtosCall
deriving DecidableEq, Repr

/-- Record one runtime call. -/
def TaskFreeRtos.call (t : TaskFreeRtos) (c : RtosCall) : TaskFreeRtos :=
  { t with calls := t.calls ++ [c] }

/-- Constructor `TaskFreeRtos(name, usStackDepth, uxPriority)`: both flags start false. -/
def mkTaskFreeRtos (scheduler_is_running : Bool) : TaskFreeRtos :=
  { task_terminated := false
    request_to_delete_task := false
    scheduler_is_running := scheduler_is_running
    calls := [] }

/-- What the rest of the system does while `ExitFromTask` loops, indexed by the iteration of
its `do ... while` loop (from 0): whether the target context has set `task_terminated` by
the time the loop condition is evaluated, and the two priorities the runtime reports. -/
structure TargetEnv where
  terminated_by : Nat → Bool
  GetPriority : Nat → UBaseType_t
  GetPriorityCurrentTask : Nat → UBaseType_t

/-- The `do ... while (task_terminated == false)` loop of `ExitFromTask`; `i` is the index
of the iteration and `fuel` bounds the number of iterations (`none` when it runs out). -/
def exitLoop (k : FreeRTOSConfig) (env : TargetEnv) :
    Nat → Nat → TaskFreeRtos → Option TaskFreeRtos
  | 0, _, _ => none
  | fuel + 1, i, t =>
    let t1 := t.call .vTaskResume
    let t2 := t1.call .xTaskAbortDelay
    let t3 := (t2.call .uxTaskPriorityGet_handle).call .uxTaskPriorityGet_NULL
    let t4 :=
      if env.GetPriority i ≤ env.GetPriorityCurrentTask i then
        t3.call (.vTaskDelay (k.pdMS_TO_TICKS 10))
      else t3
    let t5 := { t4 with task_terminated := t4.task_terminated || env.terminated_by i }
    if t5.task_terminated = false then exitLoop k env fuel (i + 1) t5 else some t5

/-- Source `ExitFromTask()`. -/
def ExitFromTask (k : FreeRTOSConfig) (env : TargetEnv) (fuel : Nat) (t : TaskFreeRtos) :
    Option TaskFreeRtos :=
  if t.task_terminated = true then
    some t
  else if t.scheduler_is_running = false then
    some (if k.INCLUDE_vTaskDelete = true then t.call .vTaskDelete_handle else t)
  else
    exitLoop k env fuel 0 { t with request_to_delete_task := true }

/-- Source `DeletingInProgress()`. -/
def DeletingInProgress (t : TaskFreeRtos) : Bool :=
  t.request_to_delete_task

/-- How a run of `RunTask` ended: the task object, the state of the step function and the
number of times `Run()` was invoked. -/
structure RunResult (σ : Type) where
  task : TaskFreeRtos
  state : σ
  invocations : Nat

/-- The `while (1)` loop of `RunTask`.  `Run` is the step function acting on its own state;
`ext i` tells whether another context has set `request_to_delete_task` by the time the
`else if` of iteration `i` (from 0) reads it; `fuel` bounds the number of iterations. -/
def runLoop {σ : Type} (Run : σ → Bool × σ) (ext : Nat → Bool) :
    Nat → Nat → TaskFreeRtos → σ → Option (RunResult σ)
  | 0, _, _, _ => none
  | fuel + 1, i, t, s =>
    let (done, s1) := Run s
    if done = true then
      some ⟨{ t with request_to_delete_task := true }, s1, i + 1⟩
    else
      let t1 := { t with request_to_delete_task := t.request_to_delete_task || ext i }
      if t1.request_to_delete_task = true then some ⟨t1, s1, i + 1⟩
      else runLoop Run ext fuel (i + 1) t1 s1

/-- Source `RunTask(void* param)`. -/
def RunTask {σ : Type} (k : FreeRTOSConfig) (Run : σ → Bool × σ) (ext : Nat → Bool)
    (fuel : Nat) (t : TaskFreeRtos) (s : σ) : Option (RunResult σ) :=
  match runLoop Run ext fuel 0 t s with
  | none => none
  | some r =>
    let t1 := { r.task with task_terminated := true }
    some { r with task := if k.INCLUDE_vTaskDelete = true then t1.call .vTaskDelete_NULL else t1 }

/-- State of the step function before its `i`-th invocation (from 0). -/
def stepState {σ : Type} (Run : σ → Bool × σ) (s : σ) : Nat → σ
  | 0 => s
  | i + 1 => (Run (stepState Run s i)).2

/-- Return value of the `i`-th invocation (from 0) of the step function. -/
def stepResult {σ : Type} (Run : σ → Bool × σ) (s : σ) (i : Nat) : Bool :=
  (Run (stepState Run s i)).1

/-! ## Well-formed queue states -/

/-- The representation invariant of `Queue<T>`: both FreeRTOS queues and the storage have
`size` elements, both cursors are inside the storage, and the number of announced items
never exceeds the number of taken slots, which never exceeds `size`. -/
def WellFormed (q : Queue T) : Prop :=
  q.freertos_push_queue.uxLength = q.size ∧
  q.freertos_pop_queue.uxLength = q.size ∧
  q.array_queue.length = q.size ∧
  q.«in» < q.size ∧
  q.out < q.size ∧
  q.freertos_pop_queue.uxMessagesWaiting ≤ q.freertos_push_queue.uxMessagesWaiting ∧
  q.freertos_push_queue.uxMessagesWaiting ≤ q.size

instance (q : Queue T) : Decidable (WellFormed q) := by
  unfold WellFormed; infer_instance

/-- A well-formed state with no call in flight: every taken slot has been announced. -/
def Quiescent (q : Queue T) : Prop :=
  WellFormed q ∧
  q.freertos_pop_queue.uxMessagesWaiting = q.freertos_push_queue.uxMessagesWaiting

instance (q : Queue T) : Decidable (Quiescent q) := by
  unfold Quiescent; infer_instance

/-- The slot reached from cursor `a` after `i` advances in a ring of `n` slots. -/
def wrap (n a i : Nat) : Nat :=
  if a + i < n then a + i else a + i - n

/-- The items held by the queue, oldest first: the `ItemWaiting` slots from `out` on. -/
def contents [CppValue T] (q : Queue T) : List T :=
  (List.range (ItemWaiting q)).map fun i => slot q (wrap q.size q.out i)

/-- A quiescent state whose write cursor is `ItemWaiting` slots ahead of its read cursor. -/
def Ring (q : Queue T) : Prop :=
  Quiescent q ∧ q.«in» = wrap q.size q.out (ItemWaiting q)

/-! ## Closed forms of the state after a successful call -/

/-- The queue right after a successful push of `item`. -/
def pushed (q : Queue T) (item : T) : Queue T :=
  { q with
    freertos_push_queue :=
      { q.freertos_push_queue with
        uxMessagesWaiting := q.freertos_push_queue.uxMessagesWaiting + 1 }
    freertos_pop_queue :=
      { q.freertos_pop_queue with
        uxMessagesWaiting := q.freertos_pop_queue.uxMessagesWaiting + 1 }
    array_queue := q.array_queue.set q.«in» item
    «in» := if q.«in» + 1 ≥ q.size then 0 else q.«in» + 1 }

/-- The queue right after a successful pop. -/
def popped [CppValue T] (q : Queue T) : Queue T :=
  { q with
    freertos_push_queue :=
      { q.freertos_push_queue with
        uxMessagesWaiting := q.freertos_push_queue.uxMessagesWaiting - 1 }
    freertos_pop_queue :=
      { q.freertos_pop_queue with
        uxMessagesWaiting := q.freertos_pop_queue.uxMessagesWaiting - 1 }
    array_queue := q.array_queue.set q.out CppValue.T_default
    out := if q.out + 1 ≥ q.size then 0 else q.out + 1 }

/-! ## The teardown loop and the run loop, iteration by iteration -/

/-- The runtime calls of iteration `i` of the teardown loop in the spec's words: resume the
context, abort its delay, then (after reading the two priorities) sleep 10 ms exactly when
the target's priority is less than or equal to the caller's. -/
def teardownIterationCalls (k : FreeRTOSConfig) (env : TargetEnv) (i : Nat) : List RtosCall :=
  [.vTaskResume, .xTaskAbortDelay, .uxTaskPriorityGet_handle, .uxTaskPriorityGet_NULL] ++
    if env.GetPriority i ≤ env.GetPriorityCurrentTask i then
      [.vTaskDelay (k.pdMS_TO_TICKS 10)]
    else []

/-- The runtime calls of iterations `i`, `i + 1`, ..., `i + n - 1` of the teardown loop. -/
def teardownCalls (k : FreeRTOSConfig) (env : TargetEnv) (i : Nat) : Nat → List RtosCall
  | 0 => []
  | n + 1 => teardownIterationCalls k env i ++ teardownCalls k env (i + 1) n

/-- Whether `request_to_delete_task` reads true at the return of the `i`-th invocation
(from 0) of the step function: it was set when `RunTask` started or another context has set
it since. -/
def requestSeen (t : TaskFreeRtos) (ext : Nat → Bool) : Nat → Bool
  | 0 => t.request_to_delete_task || ext 0
  | i + 1 => requestSeen t ext i || ext (i + 1)

/-! ## Interleaved calls -/

/-- A `Push` or `Pop` call that has taken its permit and has not returned yet. -/
inductive InFlight (T : Type) where
  /-- A `Push` holding a free-slot permit, its slot not written yet. -/
  | pushAcquired (item : T)
  /-- A `Push` that has written its slot and still has to release an available-item permit. -/
  | pushWritten
  /-- A `Pop` holding an available-item permit, its slot not read yet; `item` is the
  caller's variable. -/
  | popAcquired (item : T)
  /-- A `Pop` that has read its slot into `item` and still has to release a free-slot
  permit. -/
  | popRead (item : T)
deriving DecidableEq, Repr

/-- The queue shared by several contexts, the calls in flight (one entry per context inside
`Push` or `Pop`), and the number of final releases whose result was not `pdPASS`. -/
structure System (T : Type) where
  queue : Queue T
  inflight : List (InFlight T)
  failedReleases : Nat
deriving DecidableEq, Repr

/-- A fresh queue of capacity `N` with no call in flight. -/
def mkSystem [CppValue T] (N : Nat) : System T :=
  { queue := mkQueue N, inflight := [], failedReleases := 0 }

/-- One atomic step of some context: a new `Push` or `Pop` tries to take its permit, or the
call in flight at position `i` makes its next step. -/
inductive Action (T : Type) where
  | beginPush (item : T) (wait : TickType_t)
  | beginPop (item : T) (wait : TickType_t)
  | advance (i : Nat)
deriving DecidableEq, Repr

/-- The atomic steps of `Push` (lines 60, 64-68, 70) and of `Pop` (lines 142, 146-150, 152).
A call whose first primitive fails or keeps waiting leaves the system as it is; the result
of the last primitive is ignored by the source and only counted here. -/
def stepSystem [CppValue T] (k : FreeRTOSConfig) (s : System T) : Action T → System T
  | .beginPush item wait =>
    match xQueueSendToBack k s.queue.freertos_push_queue wait with
    | none => s
    | some (r, pushq) =>
      if decide (r = pdPASS) = true then
        { s with
          queue := { s.queue with freertos_push_queue := pushq }
          inflight := s.inflight ++ [.pushAcquired item] }
      else s
  | .beginPop item wait =>
    match xQueueReceive k s.queue.freertos_pop_queue wait with
    | none => s
    | some (r, popq) =>
      if decide (r = pdPASS) = true then
        { s with
          queue := { s.queue with freertos_pop_queue := popq }
          inflight := s.inflight ++ [.popAcquired item] }
      else s
  | .advance i =>
    match s.inflight[i]? with
    | none => s
    | some (.pushAcquired item) =>
      { s with
        queue := PushFromCriticalSection s.queue item
        inflight := s.inflight.set i .pushWritten }
    | some .pushWritten =>
      match xQueueSendToBack k s.queue.freertos_pop_queue 0 with
      | none => s
      | some (r, popq) =>
        { queue := { s.queue with freertos_pop_queue := popq }
          inflight := s.inflight.eraseIdx i
          failedReleases :=
            if decide (r = pdPASS) = true then s.failedReleases else s.failedReleases + 1 }
    | some (.popAcquired item) =>
      { s with
        queue := (PopFromCriticalSection s.queue item).1
        inflight := s.inflight.set i (.popRead (PopFromCriticalSection s.queue item).2) }
    | some (.popRead _) =>
      match xQueueReceive k s.queue.freertos_push_queue 0 with
      | none => s
      | some (r, pushq) =>
        { queue := { s.queue with freertos_push_queue := pushq }
          inflight := s.inflight.eraseIdx i
          failedReleases :=
            if decide (r = pdPASS) = true then s.failedReleases else s.failedReleases + 1 }

/-- The system after a sequence of atomic steps. -/
def runSystem [CppValue T] (k : FreeRTOSConfig) : System T → List (Action T) → System T
  | s, [] => s
  | s, a :: as => runSystem k (stepSystem k s a) as

/-- The counting invariant of the interleaved system: both FreeRTOS queues have `N` slots,
every taken slot is either announced or belongs to a call in flight, at most `N` slots are
taken, and no final release has failed. -/
def SystemInv (N : Nat) (s : System T) : Prop :=
  s.queue.freertos_push_queue.uxLength = N ∧
  s.queue.freertos_pop_queue.uxLength = N ∧
  s.queue.freertos_push_queue.uxMessagesWaiting =
    s.queue.freertos_pop_queue.uxMessagesWaiting + s.inflight.length ∧
  s.queue.freertos_push_queue.uxMessagesWaiting ≤ N ∧
  s.failedReleases = 0

/-! ## Concrete inputs -/

def exampleConfig : FreeRTOSConfig :=
  { portMAX_DELAY := 4294967295
    INCLUDE_vTaskSuspend := true
    INCLUDE_vTaskDelete := true
    pdMS_TO_TICKS := fun ms => ms }

def exampleFull : Queue Nat :=
  { freertos_push_queue := { uxLength := 2, uxMessagesWaiting := 2 }
    freertos_pop_queue := { uxLength := 2, uxMessagesWaiting := 2 }
    size := 2
    «in» := 1
    out := 1
    array_queue := [8, 7] }

def exampleHalf : Queue Nat :=
  { freertos_push_queue := { uxLength := 3, uxMessagesWaiting := 2 }
    freertos_pop_queue := { uxLength := 3, uxMessagesWaiting := 2 }
    size := 3
    «in» := 2
    out := 0
    array_queue := [8, 7, 0] }

/-- Calls of every form on a queue of capacity 2, among them a push on a full queue and a
pop on an empty one. -/
def exampleCalls : List (Call Nat) :=
  [.Push 7 0, .PushMove 8 5, .Push_FromISR 9, .Pop 0 0, .Push_FromISRMove 9, .Pop 0 10,
    .Pop 0 0, .Pop 0 0]

/-- The outcomes of `exampleCalls` on a fresh queue of capacity 2. -/
def exampleOutcomes : List (Outcome Nat) :=
  (runCalls exampleConfig (mkQueue 2) exampleCalls).getD []

/-- A step function that counts its invocations and reports done on the third one. -/
def exampleRun (n : Nat) : Bool × Nat :=
  (decide (n + 1 ≥ 3), n + 1)

def exampleEnv : TargetEnv :=
  { terminated_by := fun _ => false
    GetPriority := fun _ => 1
    GetPriorityCurrentTask := fun _ => 1 }

def exampleTerminated : TaskFreeRtos :=
  { task_terminated := true
    request_to_delete_task := true
    scheduler_is_running := true
    calls := [RtosCall.vTaskDelete_NULL] }

/-- A kernel configuration built without `vTaskDelete`. -/
def exampleConfigNoDelete : FreeRTOSConfig :=
  { exampleConfig with INCLUDE_vTaskDelete := false }

/-- A target that terminates during the second iteration of the teardown loop and whose
priority drops from above the caller's to the caller's. -/
def exampleEnvTerminating : TargetEnv :=
  { terminated_by := fun i => decide (1 ≤ i)
    GetPriority := fun i => 2 - i
    GetPriorityCurrentTask := fun _ => 1 }

/-- Two pushers and a popper interleaved on one queue. -/
def exampleActions : List (Action Nat) :=
  [.beginPush 7 0, .beginPush 8 0, .advance 1, .advance 1, .beginPop 0 0, .advance 0,
    .beginPush 9 0, .advance 1, .advance 0, .advance 0, .advance 0, .beginPop 0 0]

/-! ## Lemmas on the primitives and on single calls -/

theorem xQueueSendToBack_pass (k : FreeRTOSConfig) (x : QueueHandle_t) (w : TickType_t)
    (h : x.uxMessagesWaiting < x.uxLength) :
    xQueueSendToBack k x w =
      some (pdPASS, { x with uxMessagesWaiting := x.uxMessagesWaiting + 1 }) := by
  simp [xQueueSendToBack, h]

theorem xQueueSendToBack_zero (k : FreeRTOSConfig) (x : QueueHandle_t) :
    xQueueSendToBack k x 0 = some (xQueueSendToBackFromISR x) := by
  unfold xQueueSendToBack xQueueSendToBackFromISR
  split_ifs <;> simp_all

theorem xQueueSendToBack_full (k : FreeRTOSConfig) (x : QueueHandle_t) (w : TickType_t)
    (h : ¬ x.uxMessagesWaiting < x.uxLength) :
    xQueueSendToBack k x w = none ∨ xQueueSendToBack k x w = some (errQUEUE_FULL, x) := by
  unfold xQueueSendToBack
  split_ifs <;> simp_all

theorem xQueueReceive_pass (k : FreeRTOSConfig) (x : QueueHandle_t) (w : TickType_t)
    (h : 0 < x.uxMessagesWaiting) :
    xQueueReceive k x w =
      some (pdPASS, { x with uxMessagesWaiting := x.uxMessagesWaiting - 1 }) := by
  simp [xQueueReceive, h]

theorem xQueueReceive_empty (k : FreeRTOSConfig) (x : QueueHandle_t) (w : TickType_t)
    (h : ¬ 0 < x.uxMessagesWaiting) :
    xQueueReceive k x w = none ∨ xQueueReceive k x w = some (errQUEUE_EMPTY, x) := by
  unfold xQueueReceive
  split_ifs <;> simp_all

theorem xQueueReceive_zero_empty (k : FreeRTOSConfig) (x : QueueHandle_t)
    (h : ¬ 0 < x.uxMessagesWaiting) :
    xQueueReceive k x 0 = some (errQUEUE_EMPTY, x) := by
  simp [xQueueReceive, h]

theorem fail_ne_pass : decide (errQUEUE_FULL = pdPASS) = false := by decide
theorem empty_ne_pass : decide (errQUEUE_EMPTY = pdPASS) = false := by decide
theorem pass_eq_pass : decide (pdPASS = pdPASS) = true := by decide

theorem PushMove_eq_Push [CppValue T] (k : FreeRTOSConfig) (q : Queue T) (item : T)
    (wait : TickType_t) :
    (PushMove k q item wait).map (fun r => (r.1, r.2.1)) = Push k q item wait := by
  unfold PushMove Push PushFromCriticalSectionMove PushFromCriticalSection
  by_cases h1 : q.freertos_push_queue.uxMessagesWaiting < q.freertos_push_queue.uxLength
  · rw [xQueueSendToBack_pass k _ wait h1]
    simp only [pass_eq_pass, if_true, xQueueSendToBack_zero]
    split_ifs <;> rfl
  · rcases xQueueSendToBack_full k _ wait h1 with h | h <;> rw [h]
    · rfl
    · simp [fail_ne_pass]

theorem Push_FromISRMove_eq [CppValue T] (q : Queue T) (item : T) :
    ((Push_FromISRMove q item).1, (Push_FromISRMove q item).2.1) = Push_FromISR q item := by
  unfold Push_FromISRMove Push_FromISR PushFromCriticalSectionMove PushFromCriticalSection
  by_cases h1 : q.freertos_push_queue.uxMessagesWaiting < q.freertos_push_queue.uxLength
  · simp only [xQueueSendToBackFromISR, h1, if_true, pass_eq_pass]
    split_ifs <;> rfl
  · simp [xQueueSendToBackFromISR, h1, fail_ne_pass]

theorem Push_zero_eq_FromISR (k : FreeRTOSConfig) (q : Queue T) (item : T) :
    Push k q item 0 = some (Push_FromISR q item) := by
  unfold Push Push_FromISR
  simp only [xQueueSendToBack_zero]
  split_ifs <;> rfl


theorem Push_FromISR_pass (q : Queue T) (item : T)
    (h1 : q.freertos_push_queue.uxMessagesWaiting < q.freertos_push_queue.uxLength)
    (h2 : q.freertos_pop_queue.uxMessagesWaiting < q.freertos_pop_queue.uxLength) :
    Push_FromISR q item = (true, pushed q item) := by
  unfold Push_FromISR PushFromCriticalSection pushed
  simp only [xQueueSendToBackFromISR, h1, if_true, pass_eq_pass]
  split_ifs <;> simp_all

theorem Push_FromISR_full (q : Queue T) (item : T)
    (h1 : ¬ q.freertos_push_queue.uxMessagesWaiting < q.freertos_push_queue.uxLength) :
    Push_FromISR q item = (false, q) := by
  simp [Push_FromISR, xQueueSendToBackFromISR, h1, fail_ne_pass]

theorem Push_pass (k : FreeRTOSConfig) (q : Queue T) (item : T) (wait : TickType_t)
    (h1 : q.freertos_push_queue.uxMessagesWaiting < q.freertos_push_queue.uxLength)
    (h2 : q.freertos_pop_queue.uxMessagesWaiting < q.freertos_pop_queue.uxLength) :
    Push k q item wait = some (true, pushed q item) := by
  rw [← Push_FromISR_pass q item h1 h2, ← Push_zero_eq_FromISR k]
  unfold Push
  rw [xQueueSendToBack_pass k _ wait h1, xQueueSendToBack_pass k _ 0 h1]

theorem Push_full (k : FreeRTOSConfig) (q : Queue T) (item : T) (wait : TickType_t)
    (h1 : ¬ q.freertos_push_queue.uxMessagesWaiting < q.freertos_push_queue.uxLength) :
    Push k q item wait = none ∨ Push k q item wait = some (false, q) := by
  unfold Push
  rcases xQueueSendToBack_full k _ wait h1 with h | h <;> rw [h]
  · exact Or.inl rfl
  · right; simp [fail_ne_pass]

theorem Pop_pass [CppValue T] (k : FreeRTOSConfig) (q : Queue T) (item : T) (wait : TickType_t)
    (h1 : 0 < q.freertos_pop_queue.uxMessagesWaiting)
    (h2 : 0 < q.freertos_push_queue.uxMessagesWaiting) :
    Pop k q item wait = some (true, popped q, slot q q.out) := by
  unfold Pop PopFromCriticalSection popped
  rw [xQueueReceive_pass k _ wait h1]
  simp only [pass_eq_pass, if_true]
  by_cases hm : CppValue.is_move_assignable T = true <;>
  by_cases ho : q.out + 1 ≥ q.size <;>
  simp [hm, ho, xQueueReceive, h2, List.set_set, slot, pdPASS]

theorem Pop_empty [CppValue T] (k : FreeRTOSConfig) (q : Queue T) (item : T) (wait : TickType_t)
    (h1 : ¬ 0 < q.freertos_pop_queue.uxMessagesWaiting) :
    Pop k q item wait = none ∨ Pop k q item wait = some (false, q, item) := by
  unfold Pop
  rcases xQueueReceive_empty k _ wait h1 with h | h <;> rw [h]
  · exact Or.inl rfl
  · right; simp [empty_ne_pass]

theorem PushMove_pass [CppValue T] (k : FreeRTOSConfig) (q : Queue T) (item : T)
    (wait : TickType_t)
    (h1 : q.freertos_push_queue.uxMessagesWaiting < q.freertos_push_queue.uxLength)
    (h2 : q.freertos_pop_queue.uxMessagesWaiting < q.freertos_pop_queue.uxLength) :
    ∃ it, PushMove k q item wait = some (true, pushed q item, it) := by
  have h := PushMove_eq_Push k q item wait
  rw [Push_pass k q item wait h1 h2] at h
  cases hpm : PushMove k q item wait with
  | none => rw [hpm] at h; simp at h
  | some r =>
    rw [hpm] at h
    simp only [Option.map_some', Option.some.injEq, Prod.mk.injEq] at h
    obtain ⟨a, b, c⟩ := r
    simp only at h
    exact ⟨c, by rw [h.1, h.2]⟩

theorem PushMove_full [CppValue T] (k : FreeRTOSConfig) (q : Queue T) (item : T)
    (wait : TickType_t)
    (h1 : ¬ q.freertos_push_queue.uxMessagesWaiting < q.freertos_push_queue.uxLength) :
    PushMove k q item wait = none ∨ ∃ it, PushMove k q item wait = some (false, q, it) := by
  have h := PushMove_eq_Push k q item wait
  cases hpm : PushMove k q item wait with
  | none => exact Or.inl rfl
  | some r =>
    right
    rw [hpm] at h
    rcases Push_full k q item wait h1 with hp | hp <;> rw [hp] at h
    · simp at h
    · simp only [Option.map_some', Option.some.injEq, Prod.mk.injEq] at h
      obtain ⟨a, b, c⟩ := r
      simp only at h
      exact ⟨c, by rw [h.1, h.2]⟩

/-- A push call that finds a free slot succeeds and leaves `pushed q item`. -/
theorem runCall_push_pass [CppValue T] (k : FreeRTOSConfig) (q : Queue T) (c : Call T)
    (item : T) (hc : c.pushItem = some item)
    (h1 : q.freertos_push_queue.uxMessagesWaiting < q.freertos_push_queue.uxLength)
    (h2 : q.freertos_pop_queue.uxMessagesWaiting < q.freertos_pop_queue.uxLength) :
    ∃ it, runCall k q c = some ⟨c, true, it, pushed q item⟩ := by
  cases c with
  | Push a w =>
    simp only [Call.pushItem, Option.some.injEq] at hc
    subst hc
    exact ⟨a, by simp [runCall, Push_pass k q a w h1 h2]⟩
  | PushMove a w =>
    simp only [Call.pushItem, Option.some.injEq] at hc
    subst hc
    obtain ⟨it, h⟩ := PushMove_pass k q a w h1 h2
    exact ⟨it, by simp [runCall, h]⟩
  | Push_FromISR a =>
    simp only [Call.pushItem, Option.some.injEq] at hc
    subst hc
    exact ⟨a, by simp [runCall, Push_FromISR_pass q a h1 h2]⟩
  | Push_FromISRMove a =>
    simp only [Call.pushItem, Option.some.injEq] at hc
    subst hc
    have h := Push_FromISRMove_eq q a
    rw [Push_FromISR_pass q a h1 h2] at h
    simp only [Prod.mk.injEq] at h
    exact ⟨(Push_FromISRMove q a).2.2, by simp [runCall, h.1, h.2]⟩
  | Pop a w => simp [Call.pushItem] at hc

/-- A push call that finds no free slot either never returns or fails and leaves the queue
as it was. -/
theorem runCall_push_full [CppValue T] (k : FreeRTOSConfig) (q : Queue T) (c : Call T)
    (item : T) (hc : c.pushItem = some item)
    (h1 : ¬ q.freertos_push_queue.uxMessagesWaiting < q.freertos_push_queue.uxLength) :
    runCall k q c = none ∨ ∃ it, runCall k q c = some ⟨c, false, it, q⟩ := by
  cases c with
  | Push a w =>
    rcases Push_full k q a w h1 with h | h
    · left; simp [runCall, h]
    · right; exact ⟨a, by simp [runCall, h]⟩
  | PushMove a w =>
    rcases PushMove_full k q a w h1 with h | ⟨it, h⟩
    · left; simp [runCall, h]
    · right; exact ⟨it, by simp [runCall, h]⟩
  | Push_FromISR a =>
    right; exact ⟨a, by simp [runCall, Push_FromISR_full q a h1]⟩
  | Push_FromISRMove a =>
    right
    have h := Push_FromISRMove_eq q a
    rw [Push_FromISR_full q a h1] at h
    simp only [Prod.mk.injEq] at h
    exact ⟨(Push_FromISRMove q a).2.2, by simp [runCall, h.1, h.2]⟩
  | Pop a w => simp [Call.pushItem] at hc

theorem runCall_pop_pass [CppValue T] (k : FreeRTOSConfig) (q : Queue T) (c : Call T)
    (hc : c.isPop = true)
    (h1 : 0 < q.freertos_pop_queue.uxMessagesWaiting)
    (h2 : 0 < q.freertos_push_queue.uxMessagesWaiting) :
    runCall k q c = some ⟨c, true, slot q q.out, popped q⟩ := by
  cases c with
  | Pop a w => simp [runCall, Pop_pass k q a w h1 h2]
  | _ => simp [Call.isPop] at hc

theorem runCall_pop_empty [CppValue T] (k : FreeRTOSConfig) (q : Queue T) (c : Call T)
    (hc : c.isPop = true)
    (h1 : ¬ 0 < q.freertos_pop_queue.uxMessagesWaiting) :
    runCall k q c = none ∨ ∃ it, runCall k q c = some ⟨c, false, it, q⟩ := by
  cases c with
  | Pop a w =>
    rcases Pop_empty k q a w h1 with h | h
    · left; simp [runCall, h]
    · right; exact ⟨a, by simp [runCall, h]⟩
  | _ => simp [Call.isPop] at hc

theorem Call.pushItem_or_isPop (c : Call T) :
    (∃ item, c.pushItem = some item ∧ c.isPop = false) ∨ (c.pushItem = none ∧ c.isPop = true) := by
  cases c <;> simp [Call.pushItem, Call.isPop]

theorem slot_pushed_self [CppValue T] (q : Queue T) (item : T)
    (h : q.«in» < q.array_queue.length) : slot (pushed q item) q.«in» = item := by
  simp [slot, pushed, List.getD_eq_getElem?_getD, h]

theorem slot_pushed_ne [CppValue T] (q : Queue T) (item : T) (j : Nat) (h : j ≠ q.«in») :
    slot (pushed q item) j = slot q j := by
  simp [slot, pushed, List.getD_eq_getElem?_getD, List.getElem?_set_ne (Ne.symm h)]

theorem slot_popped_ne [CppValue T] (q : Queue T) (j : Nat) (h : j ≠ q.out) :
    slot (popped q) j = slot q j := by
  simp [slot, popped, List.getD_eq_getElem?_getD, List.getElem?_set_ne (Ne.symm h)]

theorem Ring_mkQueue [CppValue T] (C : Nat) (hC : 1 ≤ C) : Ring (mkQueue C : Queue T) := by
  simp [Ring, Quiescent, WellFormed, mkQueue, xQueueCreate, wrap, ItemWaiting,
    uxQueueMessagesWaiting]
  omega

theorem contents_mkQueue [CppValue T] (C : Nat) : contents (mkQueue C : Queue T) = [] := by
  simp [contents, mkQueue, xQueueCreate, ItemWaiting, uxQueueMessagesWaiting]

theorem Quiescent_pushed (q : Queue T) (item : T) (hq : Quiescent q)
    (hfree : q.freertos_push_queue.uxMessagesWaiting < q.size) :
    Quiescent (pushed q item) := by
  obtain ⟨⟨h1, h2, h3, h4, h5, h6, h7⟩, h8⟩ := hq
  simp only [Quiescent, WellFormed, pushed, List.length_set]
  refine ⟨⟨h1, h2, h3, ?_, h5, ?_, ?_⟩, ?_⟩
  · split_ifs <;> omega
  · omega
  · omega
  · omega

theorem Quiescent_popped [CppValue T] (q : Queue T) (hq : Quiescent q) :
    Quiescent (popped q) := by
  obtain ⟨⟨h1, h2, h3, h4, h5, h6, h7⟩, h8⟩ := hq
  simp only [Quiescent, WellFormed, popped, List.length_set]
  refine ⟨⟨h1, h2, h3, h4, ?_, ?_, ?_⟩, ?_⟩
  · split_ifs <;> omega
  · omega
  · omega
  · omega

theorem Ring_pushed [CppValue T] (q : Queue T) (item : T) (hq : Ring q)
    (hfree : q.freertos_push_queue.uxMessagesWaiting < q.size) :
    Ring (pushed q item) ∧ contents (pushed q item) = contents q ++ [item] := by
  obtain ⟨hqq, hin⟩ := hq
  have hqp := Quiescent_pushed q item hqq hfree
  obtain ⟨⟨h1, h2, h3, h4, h5, h6, h7⟩, h8⟩ := hqq
  simp only [ItemWaiting, uxQueueMessagesWaiting] at hin
  constructor
  · refine ⟨hqp, ?_⟩
    simp only [pushed, ItemWaiting, uxQueueMessagesWaiting]
    rw [hin]
    unfold wrap
    split_ifs <;> omega
  · have hc : ItemWaiting (pushed q item) = ItemWaiting q + 1 := rfl
    have hs : (pushed q item).size = q.size := rfl
    have ho : (pushed q item).out = q.out := rfl
    simp only [contents, hc, hs, ho, List.range_succ, List.map_append, List.map_cons,
      List.map_nil]
    congr 1
    · apply List.map_congr_left
      intro i hi
      rw [List.mem_range] at hi
      simp only [ItemWaiting, uxQueueMessagesWaiting] at hi
      apply slot_pushed_ne
      rw [hin]
      unfold wrap
      split_ifs <;> omega
    · simp only [ItemWaiting, uxQueueMessagesWaiting]
      rw [← hin, slot_pushed_self q item (by omega)]

theorem Ring_popped [CppValue T] (q : Queue T) (hq : Ring q)
    (havail : 0 < q.freertos_pop_queue.uxMessagesWaiting) :
    Ring (popped q) ∧ contents q = slot q q.out :: contents (popped q) := by
  obtain ⟨hqq, hin⟩ := hq
  have hqp := Quiescent_popped q hqq
  obtain ⟨⟨h1, h2, h3, h4, h5, h6, h7⟩, h8⟩ := hqq
  simp only [ItemWaiting, uxQueueMessagesWaiting] at hin
  constructor
  · refine ⟨hqp, ?_⟩
    simp only [popped, ItemWaiting, uxQueueMessagesWaiting]
    rw [hin]
    unfold wrap
    split_ifs <;> omega
  · obtain ⟨c, hc⟩ : ∃ c, q.freertos_pop_queue.uxMessagesWaiting = c + 1 :=
      ⟨q.freertos_pop_queue.uxMessagesWaiting - 1, by omega⟩
    have hcp : ItemWaiting (popped q) = c := by
      simp only [ItemWaiting, uxQueueMessagesWaiting, popped]; omega
    have hcq : ItemWaiting q = c + 1 := hc
    have hs : (popped q).size = q.size := rfl
    simp only [contents, hcp, hcq, hs, List.range_succ_eq_map, List.map_cons, List.map_map]
    congr 1
    · simp [wrap, h5]
    · apply List.map_congr_left
      intro i hi
      rw [List.mem_range] at hi
      simp only [Function.comp]
      have hw : wrap q.size (popped q).out i = wrap q.size q.out (i + 1) := by
        simp only [popped, wrap]
        split_ifs <;> omega
      rw [hw, slot_popped_ne]
      unfold wrap
      split_ifs <;> omega

theorem accepted_cons (o : Outcome T) (os : List (Outcome T)) :
    accepted (o :: os) = accepted [o] ++ accepted os := by
  simp only [accepted, List.filterMap_cons, List.filterMap_nil]
  split <;> simp

theorem delivered_cons (o : Outcome T) (os : List (Outcome T)) :
    delivered (o :: os) = delivered [o] ++ delivered os := by
  simp only [delivered, List.filterMap_cons, List.filterMap_nil]
  split <;> simp

/-- One completed call keeps the ring invariant and the capacity, and moves items as a FIFO
does: what it accepts goes to the back, what it delivers comes from the front. -/
theorem runCall_ring [CppValue T] (k : FreeRTOSConfig) (q : Queue T) (c : Call T)
    (o : Outcome T) (hq : Ring q) (hrun : runCall k q c = some o) :
    o.call = c ∧ Ring o.after ∧ o.after.size = q.size ∧
      contents q ++ accepted [o] = delivered [o] ++ contents o.after := by
  have hq0 := hq
  obtain ⟨⟨⟨h1, h2, h3, h4, h5, h6, h7⟩, h8⟩, hin⟩ := hq0
  rcases Call.pushItem_or_isPop c with ⟨item, hc, hnp⟩ | ⟨hc, hp⟩
  · by_cases hfree : q.freertos_push_queue.uxMessagesWaiting < q.freertos_push_queue.uxLength
    · obtain ⟨it, h⟩ := runCall_push_pass k q c item hc hfree (by omega)
      rw [h] at hrun
      simp only [Option.some.injEq] at hrun
      subst hrun
      obtain ⟨hr, hcont⟩ := Ring_pushed q item hq (by omega)
      refine ⟨rfl, hr, rfl, ?_⟩
      simp [accepted, delivered, hc, hnp, hcont]
    · rcases runCall_push_full k q c item hc hfree with h | ⟨it, h⟩
      · rw [h] at hrun; simp at hrun
      · rw [h] at hrun
        simp only [Option.some.injEq] at hrun
        subst hrun
        exact ⟨rfl, hq, rfl, by simp [accepted, delivered]⟩
  · by_cases havail : 0 < q.freertos_pop_queue.uxMessagesWaiting
    · have h := runCall_pop_pass k q c hp havail (by omega)
      rw [h] at hrun
      simp only [Option.some.injEq] at hrun
      subst hrun
      obtain ⟨hr, hcont⟩ := Ring_popped q hq havail
      refine ⟨rfl, hr, rfl, ?_⟩
      simp [accepted, delivered, hc, hp, hcont]
    · rcases runCall_pop_empty k q c hp havail with h | ⟨it, h⟩
      · rw [h] at hrun; simp at hrun
      · rw [h] at hrun
        simp only [Option.some.injEq] at hrun
        subst hrun
        exact ⟨rfl, hq, rfl, by simp [accepted, delivered]⟩

theorem runCalls_cons_some [CppValue T] (k : FreeRTOSConfig) (q : Queue T) (c : Call T)
    (cs : List (Call T)) (os : List (Outcome T)) (h : runCalls k q (c :: cs) = some os) :
    ∃ o os1, runCall k q c = some o ∧ runCalls k o.after cs = some os1 ∧ os = o :: os1 := by
  simp only [runCalls] at h
  cases hc : runCall k q c with
  | none => rw [hc] at h; simp at h
  | some o =>
    rw [hc] at h
    simp only at h
    cases hr : runCalls k o.after cs with
    | none => rw [hr] at h; simp at h
    | some os1 =>
      rw [hr] at h
      simp only [Option.some.injEq] at h
      exact ⟨o, os1, rfl, hr, h.symm⟩

/-- A completed sequence of calls from a ring state: every intermediate state is a ring
state of the same capacity, and the accepted items are the delivered ones followed by what
the queue still holds. -/
theorem runCalls_ring [CppValue T] (k : FreeRTOSConfig) (cs : List (Call T)) :
    ∀ (q : Queue T) (os : List (Outcome T)), Ring q → runCalls k q cs = some os →
      (∀ o ∈ os, Ring o.after ∧ o.after.size = q.size) ∧
      contents q ++ accepted os = delivered os ++ contents (lastState q os) := by
  induction cs with
  | nil =>
    intro q os _ h
    simp only [runCalls, Option.some.injEq] at h
    subst h
    simp [accepted, delivered, lastState]
  | cons c cs ih =>
    intro q os hq h
    obtain ⟨o, os1, hc, hr, rfl⟩ := runCalls_cons_some k q c cs os h
    obtain ⟨_, hro, hsz, hfifo⟩ := runCall_ring k q c o hq hc
    obtain ⟨hall, hrest⟩ := ih o.after os1 hro hr
    constructor
    · intro o1 ho1
      rcases List.mem_cons.mp ho1 with rfl | hmem
      · exact ⟨hro, hsz⟩
      · obtain ⟨ha, hb⟩ := hall o1 hmem
        exact ⟨ha, hb.trans hsz⟩
    · rw [accepted_cons, delivered_cons, ← List.append_assoc, hfifo, List.append_assoc, hrest,
        List.append_assoc]
      rfl

theorem Quiescent_counts (q : Queue T) (hq : Quiescent q) :
    ItemWaiting q + SpacesAvailable q = q.size := by
  obtain ⟨⟨h1, h2, h3, h4, h5, h6, h7⟩, h8⟩ := hq
  simp only [ItemWaiting, SpacesAvailable, uxQueueMessagesWaiting, uxQueueSpacesAvailable]
  omega

theorem runCalls_append [CppValue T] (k : FreeRTOSConfig) (a b : List (Call T)) :
    ∀ (q : Queue T) (os1 os2 : List (Outcome T)), runCalls k q a = some os1 →
      runCalls k (lastState q os1) b = some os2 →
      runCalls k q (a ++ b) = some (os1 ++ os2) ∧
        lastState q (os1 ++ os2) = lastState (lastState q os1) os2 := by
  induction a with
  | nil =>
    intro q os1 os2 h1 h2
    simp only [runCalls, Option.some.injEq] at h1
    subst h1
    exact ⟨by simpa [lastState] using h2, rfl⟩
  | cons c cs ih =>
    intro q os1 os2 h1 h2
    obtain ⟨o, os, hc, hr, rfl⟩ := runCalls_cons_some k q c cs os1 h1
    obtain ⟨h3, h4⟩ := ih o.after os os2 hr h2
    constructor
    · rw [List.cons_append]
      simp only [runCalls, hc]
      rw [h3]
      rfl
    · simpa [lastState] using h4

theorem runCalls_length [CppValue T] (k : FreeRTOSConfig) (cs : List (Call T)) :
    ∀ (q : Queue T) (os : List (Outcome T)), runCalls k q cs = some os →
      os.length = cs.length := by
  induction cs with
  | nil =>
    intro q os h
    simp only [runCalls, Option.some.injEq] at h
    subst h
    rfl
  | cons c cs ih =>
    intro q os h
    obtain ⟨o, os1, _, hr, rfl⟩ := runCalls_cons_some k q c cs os h
    simp [ih o.after os1 hr]

/-- As many pushes as there are free slots all succeed; they advance `in` and leave `out`. -/
theorem runCalls_pushes [CppValue T] (k : FreeRTOSConfig) (pushes : List (Call T)) :
    ∀ q : Queue T, Quiescent q → (∀ c ∈ pushes, c.isPop = false) →
      ItemWaiting q + pushes.length ≤ q.size →
      ∃ os, runCalls k q pushes = some os ∧ (∀ o ∈ os, o.success = true) ∧
        Quiescent (lastState q os) ∧ (lastState q os).size = q.size ∧
        (lastState q os).out = q.out ∧
        (lastState q os).«in» = wrap q.size q.«in» pushes.length ∧
        ItemWaiting (lastState q os) = ItemWaiting q + pushes.length := by
  induction pushes with
  | nil =>
    intro q hq _ _
    refine ⟨[], rfl, by simp, hq, rfl, rfl, ?_, rfl⟩
    obtain ⟨⟨h1, h2, h3, h4, h5, h6, h7⟩, h8⟩ := hq
    simp [lastState, wrap, h4]
  | cons c cs ih =>
    intro q hq hall hlen
    have hq0 := hq
    obtain ⟨⟨h1, h2, h3, h4, h5, h6, h7⟩, h8⟩ := hq0
    simp only [ItemWaiting, uxQueueMessagesWaiting, List.length_cons] at hlen
    have hnp : c.isPop = false := hall c (List.mem_cons_self c cs)
    obtain ⟨item, hc⟩ : ∃ item, c.pushItem = some item := by
      rcases Call.pushItem_or_isPop c with ⟨item, hc, _⟩ | ⟨_, hp⟩
      · exact ⟨item, hc⟩
      · rw [hp] at hnp; cases hnp
    obtain ⟨it, hrun⟩ := runCall_push_pass k q c item hc (by omega) (by omega)
    have hqp := Quiescent_pushed q item hq (by omega)
    obtain ⟨os, hos, hsucc, hql, hsz, hout, hin, hcnt⟩ :=
      ih (pushed q item) hqp (fun c1 hc1 => hall c1 (List.mem_cons_of_mem c hc1))
        (by simp only [ItemWaiting, uxQueueMessagesWaiting, pushed]; omega)
    refine ⟨⟨c, true, it, pushed q item⟩ :: os, ?_, ?_, hql, hsz, hout, ?_, ?_⟩
    · simp only [runCalls, hrun, hos]
    · intro o ho
      rcases List.mem_cons.mp ho with rfl | hmem
      · rfl
      · exact hsucc o hmem
    · simp only [lastState, hin, List.length_cons]
      simp only [pushed, wrap]
      split_ifs <;> omega
    · simp only [lastState, hcnt, List.length_cons]
      simp only [ItemWaiting, uxQueueMessagesWaiting, pushed]
      omega

/-- As many pops as there are items all succeed; they advance `out` and leave `in`. -/
theorem runCalls_pops [CppValue T] (k : FreeRTOSConfig) (pops : List (Call T)) :
    ∀ q : Queue T, Quiescent q → (∀ c ∈ pops, c.isPop = true) →
      pops.length ≤ ItemWaiting q →
      ∃ os, runCalls k q pops = some os ∧ (∀ o ∈ os, o.success = true) ∧
        Quiescent (lastState q os) ∧ (lastState q os).size = q.size ∧
        (lastState q os).«in» = q.«in» ∧
        (lastState q os).out = wrap q.size q.out pops.length ∧
        ItemWaiting (lastState q os) + pops.length = ItemWaiting q := by
  induction pops with
  | nil =>
    intro q hq _ _
    refine ⟨[], rfl, by simp, hq, rfl, rfl, ?_, rfl⟩
    obtain ⟨⟨h1, h2, h3, h4, h5, h6, h7⟩, h8⟩ := hq
    simp [lastState, wrap, h5]
  | cons c cs ih =>
    intro q hq hall hlen
    have hq0 := hq
    obtain ⟨⟨h1, h2, h3, h4, h5, h6, h7⟩, h8⟩ := hq0
    simp only [ItemWaiting, uxQueueMessagesWaiting, List.length_cons] at hlen
    have hp : c.isPop = true := hall c (List.mem_cons_self c cs)
    have hrun := runCall_pop_pass k q c hp (by omega) (by omega)
    have hqp := Quiescent_popped q hq
    obtain ⟨os, hos, hsucc, hql, hsz, hin, hout, hcnt⟩ :=
      ih (popped q) hqp (fun c1 hc1 => hall c1 (List.mem_cons_of_mem c hc1))
        (by simp only [ItemWaiting, uxQueueMessagesWaiting, popped]; omega)
    refine ⟨⟨c, true, slot q q.out, popped q⟩ :: os, ?_, ?_, hql, hsz, hin, ?_, ?_⟩
    · simp only [runCalls, hrun, hos]
    · intro o ho
      rcases List.mem_cons.mp ho with rfl | hmem
      · rfl
      · exact hsucc o hmem
    · simp only [lastState, hout, List.length_cons]
      simp only [popped, wrap]
      split_ifs <;> omega
    · simp only [lastState, List.length_cons]
      simp only [ItemWaiting, uxQueueMessagesWaiting, popped] at hcnt ⊢
      omega

theorem runLoop_done {σ : Type} (Run : σ → Bool × σ) (s : σ) (K : Nat)
    (hnot : ∀ i, i + 1 < K → stepResult Run s i = false)
    (hdone : stepResult Run s (K - 1) = true) :
    ∀ (fuel i : Nat) (t : TaskFreeRtos), i < K → K ≤ i + fuel →
      t.request_to_delete_task = false →
      runLoop Run (fun _ => false) fuel i t (stepState Run s i) =
        some ⟨{ t with request_to_delete_task := true }, stepState Run s K, K⟩ := by
  intro fuel
  induction fuel with
  | zero => intro i t hi hf; omega
  | succ fuel ih =>
    intro i t hi hf hreq
    by_cases hlast : i + 1 = K
    · have hd : (Run (stepState Run s i)).1 = true := by
        have : K - 1 = i := by omega
        rw [this] at hdone
        exact hdone
      have hs : (Run (stepState Run s i)).2 = stepState Run s K := by
        rw [← hlast]; rfl
      simp only [runLoop, hd, if_true, hs, hlast]
    · have hd : (Run (stepState Run s i)).1 = false := hnot i (by omega)
      have hrec := ih (i + 1) t (by omega) (by omega) hreq
      have hs : (Run (stepState Run s i)).2 = stepState Run s (i + 1) := rfl
      simp only [runLoop, hd, hreq, hs, Bool.or_false, Bool.false_eq_true, if_false]
      rw [← hrec]
      cases t
      simp_all

/-! ## Lemmas on the teardown loop and the run loop -/

theorem exitLoop_step (k : FreeRTOSConfig) (env : TargetEnv) (fuel i : Nat) (t : TaskFreeRtos) :
    exitLoop k env (fuel + 1) i t =
      if (t.task_terminated || env.terminated_by i) = false then
        exitLoop k env fuel (i + 1)
          { t with
            calls := t.calls ++ teardownIterationCalls k env i
            task_terminated := t.task_terminated || env.terminated_by i }
      else
        some
          { t with
            calls := t.calls ++ teardownIterationCalls k env i
            task_terminated := t.task_terminated || env.terminated_by i } := by
  simp only [exitLoop, TaskFreeRtos.call, teardownIterationCalls]
  by_cases hp : env.GetPriority i ≤ env.GetPriorityCurrentTask i <;>
    simp [hp, List.append_assoc]

/-- A teardown loop that returns has seen `task_terminated`, has left the other two flags
alone, and has logged exactly the calls of its iterations. -/
theorem exitLoop_some (k : FreeRTOSConfig) (env : TargetEnv) :
    ∀ (fuel i : Nat) (t r : TaskFreeRtos), exitLoop k env fuel i t = some r →
      r.task_terminated = true ∧ r.request_to_delete_task = t.request_to_delete_task ∧
      r.scheduler_is_running = t.scheduler_is_running ∧
      ∃ n, 1 ≤ n ∧ n ≤ fuel ∧ r.calls = t.calls ++ teardownCalls k env i n := by
  intro fuel
  induction fuel with
  | zero => intro i t r h; simp [exitLoop] at h
  | succ fuel ih =>
    intro i t r h
    rw [exitLoop_step] at h
    split_ifs at h with hc
    · obtain ⟨h1, h2, h3, n, hn1, hn2, h4⟩ := ih (i + 1) _ r h
      refine ⟨h1, h2, h3, n + 1, by omega, by omega, ?_⟩
      rw [h4]
      simp [teardownCalls, List.append_assoc]
    · simp only [Option.some.injEq] at h
      subst h
      have hto : (t.task_terminated || env.terminated_by i) = true := by
        cases hv : (t.task_terminated || env.terminated_by i)
        · exact absurd hv hc
        · rfl
      refine ⟨hto, rfl, rfl, 1, le_refl 1, by omega, ?_⟩
      simp [teardownCalls]

/-- While the target has not terminated the teardown loop does not return. -/
theorem exitLoop_none (k : FreeRTOSConfig) (env : TargetEnv) :
    ∀ (fuel i : Nat) (t : TaskFreeRtos), t.task_terminated = false →
      (∀ j, i ≤ j → j < i + fuel → env.terminated_by j = false) →
      exitLoop k env fuel i t = none := by
  intro fuel
  induction fuel with
  | zero => intro i t _ _; rfl
  | succ fuel ih =>
    intro i t ht henv
    rw [exitLoop_step]
    have h0 : env.terminated_by i = false := henv i (le_refl i) (by omega)
    simp only [ht, h0, Bool.or_false, if_true]
    exact ih (i + 1) _ rfl (fun j hj1 hj2 => henv j (by omega) (by omega))

/-- Once the target terminates the teardown loop returns, given fuel to get there. -/
theorem exitLoop_returns (k : FreeRTOSConfig) (env : TargetEnv) (n : Nat)
    (hn : env.terminated_by n = true) :
    ∀ (fuel i : Nat) (t : TaskFreeRtos), i ≤ n → n < i + fuel →
      ∃ r, exitLoop k env fuel i t = some r := by
  intro fuel
  induction fuel with
  | zero => intro i t h1 h2; omega
  | succ fuel ih =>
    intro i t h1 h2
    rw [exitLoop_step]
    split_ifs with hc
    · have hi : env.terminated_by i = false := by
        cases hti : env.terminated_by i
        · rfl
        · rw [hti] at hc; simp at hc
      have hne : i ≠ n := by
        intro h; rw [h, hn] at hi; cases hi
      exact ih (i + 1) _ (by omega) (by omega)
    · exact ⟨_, rfl⟩

theorem runLoop_stops {σ : Type} (Run : σ → Bool × σ) (ext : Nat → Bool) (s : σ) (K : Nat) :
    ∀ (fuel i : Nat) (t : TaskFreeRtos), i ≤ K → K < i + fuel →
      (∀ j, i ≤ j → j < K → stepResult Run s j = false ∧ ext j = false) →
      (i < K → t.request_to_delete_task = false) →
      (stepResult Run s K = true ∨ ext K = true ∨ (i = K ∧ t.request_to_delete_task = true)) →
      runLoop Run ext fuel i t (stepState Run s i) =
        some ⟨{ t with request_to_delete_task := true }, stepState Run s (K + 1), K + 1⟩ := by
  intro fuel
  induction fuel with
  | zero => intro i t h1 h2; omega
  | succ fuel ih =>
    intro i t h1 h2 hbefore hreq hstop
    have hs : (Run (stepState Run s i)).2 = stepState Run s (i + 1) := rfl
    by_cases hlast : i = K
    · subst hlast
      by_cases hd : (Run (stepState Run s i)).1 = true
      · simp only [runLoop, hd, if_true, hs]
      · have hd0 : (Run (stepState Run s i)).1 = false := by simpa using hd
        have hflag : (t.request_to_delete_task || ext i) = true := by
          rcases hstop with h | h | ⟨_, h⟩
          · exact absurd h hd
          · simp [h]
          · simp [h]
        simp only [runLoop, hd0, hs, hflag, if_true, Bool.false_eq_true, if_false]
    · obtain ⟨hd, he⟩ := hbefore i (le_refl i) (by omega)
      have hd0 : (Run (stepState Run s i)).1 = false := hd
      have hr : t.request_to_delete_task = false := hreq (by omega)
      have hrec := ih (i + 1) t (by omega) (by omega)
        (fun j hj1 hj2 => hbefore j (by omega) hj2) (fun _ => hr)
        (by
          rcases hstop with h | h | ⟨h, _⟩
          · exact Or.inl h
          · exact Or.inr (Or.inl h)
          · exact absurd h hlast)
      simp only [runLoop, hd0, hs, hr, he, Bool.or_false, Bool.false_eq_true, if_false]
      rw [← hrec]
      cases t
      simp_all

theorem requestSeen_false (t : TaskFreeRtos) (ext : Nat → Bool) :
    ∀ n, requestSeen t ext n = false →
      t.request_to_delete_task = false ∧ ∀ j, j ≤ n → ext j = false := by
  intro n
  induction n with
  | zero =>
    intro h
    simp only [requestSeen, Bool.or_eq_false_iff] at h
    exact ⟨h.1, fun j hj => by have : j = 0 := by omega
                               rw [this]; exact h.2⟩
  | succ n ih =>
    intro h
    simp only [requestSeen, Bool.or_eq_false_iff] at h
    obtain ⟨h1, h2⟩ := ih h.1
    refine ⟨h1, fun j hj => ?_⟩
    by_cases hjn : j ≤ n
    · exact h2 j hjn
    · have : j = n + 1 := by omega
      rw [this]; exact h.2

/-! ## Lemmas on failed calls and on interleaved calls -/

theorem xQueueReceive_zero (k : FreeRTOSConfig) (x : QueueHandle_t) :
    xQueueReceive k x 0 =
      some (if 0 < x.uxMessagesWaiting then
          (pdPASS, { x with uxMessagesWaiting := x.uxMessagesWaiting - 1 })
        else (errQUEUE_EMPTY, x)) := by
  unfold xQueueReceive
  split_ifs <;> simp_all

theorem PushMove_false [CppValue T] (k : FreeRTOSConfig) (q q1 : Queue T) (item it : T)
    (wait : TickType_t) (h : PushMove k q item wait = some (false, q1, it)) :
    q1 = q ∧ it = item := by
  by_cases h1 : q.freertos_push_queue.uxMessagesWaiting < q.freertos_push_queue.uxLength
  · unfold PushMove at h
    rw [xQueueSendToBack_pass k _ wait h1] at h
    simp only [pass_eq_pass, if_true, xQueueSendToBack_zero] at h
    simp at h
  · unfold PushMove at h
    rcases xQueueSendToBack_full k _ wait h1 with hx | hx <;> rw [hx] at h
    · simp at h
    · simp [fail_ne_pass] at h
      exact ⟨h.1.symm, h.2.symm⟩

theorem Push_FromISRMove_false [CppValue T] (q q1 : Queue T) (item it : T)
    (h : Push_FromISRMove q item = (false, q1, it)) : q1 = q ∧ it = item := by
  by_cases h1 : q.freertos_push_queue.uxMessagesWaiting < q.freertos_push_queue.uxLength
  · unfold Push_FromISRMove at h
    simp [xQueueSendToBackFromISR, h1, pass_eq_pass] at h
  · unfold Push_FromISRMove at h
    simp [xQueueSendToBackFromISR, h1, fail_ne_pass] at h
    exact ⟨h.1.symm, h.2.symm⟩

theorem PushFromCriticalSection_permits (q : Queue T) (item : T) :
    (PushFromCriticalSection q item).freertos_push_queue = q.freertos_push_queue ∧
    (PushFromCriticalSection q item).freertos_pop_queue = q.freertos_pop_queue := by
  unfold PushFromCriticalSection
  simp only []
  split_ifs <;> exact ⟨rfl, rfl⟩

theorem PopFromCriticalSection_permits [CppValue T] (q : Queue T) (item : T) :
    (PopFromCriticalSection q item).1.freertos_push_queue = q.freertos_push_queue ∧
    (PopFromCriticalSection q item).1.freertos_pop_queue = q.freertos_pop_queue := by
  unfold PopFromCriticalSection
  by_cases hm : CppValue.is_move_assignable T = true <;>
  by_cases ho : q.out + 1 ≥ q.size <;>
  simp [hm, ho]

theorem getElem?_some_lt {α : Type} (l : List α) (i : Nat) (a : α) (h : l[i]? = some a) :
    i < l.length := by
  obtain ⟨hlt, _⟩ := List.getElem?_eq_some.mp h
  exact hlt

theorem SystemInv_mkSystem [CppValue T] (N : Nat) : SystemInv N (mkSystem N : System T) := by
  simp [SystemInv, mkSystem, mkQueue, xQueueCreate]

/-- Every atomic step keeps the counting invariant. -/
theorem stepSystem_inv [CppValue T] (k : FreeRTOSConfig) (N : Nat) (s : System T)
    (a : Action T) (hs : SystemInv N s) : SystemInv N (stepSystem k s a) := by
  obtain ⟨h1, h2, h3, h4, h5⟩ := hs
  cases a with
  | beginPush item wait =>
    simp only [stepSystem]
    by_cases hp : s.queue.freertos_push_queue.uxMessagesWaiting <
        s.queue.freertos_push_queue.uxLength
    · rw [xQueueSendToBack_pass k _ wait hp]
      simp only [pass_eq_pass, decide_True, if_true, SystemInv, List.length_append, List.length_singleton]
      exact ⟨h1, h2, by omega, by omega, h5⟩
    · rcases xQueueSendToBack_full k _ wait hp with hx | hx <;> rw [hx]
      · exact ⟨h1, h2, h3, h4, h5⟩
      · simp only [fail_ne_pass, Bool.false_eq_true, if_false]
        exact ⟨h1, h2, h3, h4, h5⟩
  | beginPop item wait =>
    simp only [stepSystem]
    by_cases hp : 0 < s.queue.freertos_pop_queue.uxMessagesWaiting
    · rw [xQueueReceive_pass k _ wait hp]
      simp only [pass_eq_pass, decide_True, if_true, SystemInv, List.length_append, List.length_singleton]
      exact ⟨h1, h2, by omega, h4, h5⟩
    · rcases xQueueReceive_empty k _ wait hp with hx | hx <;> rw [hx]
      · exact ⟨h1, h2, h3, h4, h5⟩
      · simp only [empty_ne_pass, Bool.false_eq_true, if_false]
        exact ⟨h1, h2, h3, h4, h5⟩
  | advance i =>
    simp only [stepSystem]
    cases hi : s.inflight[i]? with
    | none => exact ⟨h1, h2, h3, h4, h5⟩
    | some f =>
      have hlt := getElem?_some_lt s.inflight i f hi
      cases f with
      | pushAcquired item =>
        obtain ⟨e1, e2⟩ := PushFromCriticalSection_permits s.queue item
        simp only [SystemInv, e1, e2, List.length_set]
        exact ⟨h1, h2, h3, h4, h5⟩
      | pushWritten =>
        have hp : s.queue.freertos_pop_queue.uxMessagesWaiting <
            s.queue.freertos_pop_queue.uxLength := by omega
        simp only [xQueueSendToBack_pass k _ 0 hp, pass_eq_pass, decide_True, if_true, SystemInv,
          List.length_eraseIdx, hlt]
        exact ⟨h1, h2, by omega, h4, h5⟩
      | popAcquired item =>
        obtain ⟨e1, e2⟩ := PopFromCriticalSection_permits s.queue item
        simp only [SystemInv, e1, e2, List.length_set]
        exact ⟨h1, h2, h3, h4, h5⟩
      | popRead item =>
        have hp : 0 < s.queue.freertos_push_queue.uxMessagesWaiting := by omega
        simp only [xQueueReceive_pass k _ 0 hp, pass_eq_pass, decide_True, if_true, SystemInv,
          List.length_eraseIdx, hlt]
        exact ⟨h1, h2, by omega, by omega, h5⟩

theorem runSystem_inv [CppValue T] (k : FreeRTOSConfig) (N : Nat) (as : List (Action T)) :
    ∀ s : System T, SystemInv N s → SystemInv N (runSystem k s as) := by
  induction as with
  | nil => intro s hs; exact hs
  | cons a as ih => intro s hs; exact ih _ (stepSystem_inv k N s a hs)

/-- Run alone, the three atomic steps of `Push` are the source function `Push`. -/
theorem Push_as_steps [CppValue T] (k : FreeRTOSConfig) (q : Queue T) (item : T)
    (wait : TickType_t) (b : Bool) (q1 : Queue T) (h : Push k q item wait = some (b, q1)) :
    (runSystem k ⟨q, [], 0⟩ [.beginPush item wait, .advance 0, .advance 0]).queue = q1 := by
  unfold Push at h
  cases hx : xQueueSendToBack k q.freertos_push_queue wait with
  | none => rw [hx] at h; simp at h
  | some p =>
    obtain ⟨r, pushq⟩ := p
    rw [hx] at h
    by_cases hr : decide (r = pdPASS) = true
    · simp only [hr, if_true, xQueueSendToBack_zero, Option.some.injEq, Prod.mk.injEq] at h
      simp [runSystem, stepSystem, hx, hr, xQueueSendToBack_zero, h.2]
    · simp only [hr, Bool.false_eq_true, if_false, Option.some.injEq, Prod.mk.injEq] at h
      have hq : pushq = q.freertos_push_queue := by
        unfold xQueueSendToBack at hx
        split_ifs at hx <;> simp_all [pdPASS, errQUEUE_FULL]
      simp [runSystem, stepSystem, hx, hr, ← h.2, hq]

/-- Run alone, the three atomic steps of `Pop` are the source function `Pop`. -/
theorem Pop_as_steps [CppValue T] (k : FreeRTOSConfig) (q : Queue T) (item : T)
    (wait : TickType_t) (b : Bool) (q1 : Queue T) (it : T)
    (h : Pop k q item wait = some (b, q1, it)) :
    (runSystem k ⟨q, [], 0⟩ [.beginPop item wait, .advance 0, .advance 0]).queue = q1 := by
  unfold Pop at h
  cases hx : xQueueReceive k q.freertos_pop_queue wait with
  | none => rw [hx] at h; simp at h
  | some p =>
    obtain ⟨r, popq⟩ := p
    rw [hx] at h
    by_cases hr : decide (r = pdPASS) = true
    · simp only [hr, if_true, xQueueReceive_zero, Option.some.injEq, Prod.mk.injEq] at h
      simp [runSystem, stepSystem, hx, hr, xQueueReceive_zero, h.2.1]
    · simp only [hr, Bool.false_eq_true, if_false, Option.some.injEq, Prod.mk.injEq] at h
      have hq : popq = q.freertos_pop_queue := by
        unfold xQueueReceive at hx
        split_ifs at hx <;> simp_all [pdPASS, errQUEUE_EMPTY]
      simp [runSystem, stepSystem, hx, hr, ← h.2.1, hq]

/-! ## The claims -/

/-- C1: on a fresh queue of capacity `C ≥ 1`, after each call of any completed sequence of
`Push` (copy or move), `Push_FromISR` (copy or move) and `Pop` calls,
`ItemWaiting() + SpacesAvailable() = C`. -/
theorem C1_counts_sum_to_capacity [CppValue T] (k : FreeRTOSConfig) (C : Nat) (hC : 1 ≤ C)
    (cs : List (Call T)) (os : List (Outcome T))
    (hrun : runCalls k (mkQueue C) cs = some os) :
    ∀ o ∈ os, ItemWaiting o.after + SpacesAvailable o.after = C := by
  intro o ho
  obtain ⟨hr, hs⟩ := (runCalls_ring k cs (mkQueue C) os (Ring_mkQueue C hC) hrun).1 o ho
  rw [Quiescent_counts o.after hr.1, hs]
  rfl

theorem C1_counts_sum_to_capacity_witness :
    1 ≤ 2 ∧ runCalls exampleConfig (mkQueue 2) exampleCalls = some exampleOutcomes ∧
      exampleOutcomes.length = 8 ∧
      ∀ o ∈ exampleOutcomes, ItemWaiting o.after + SpacesAvailable o.after = 2 :=
  ⟨by decide, by decide, by decide,
    C1_counts_sum_to_capacity exampleConfig 2 (by decide) exampleCalls exampleOutcomes
      (by decide)⟩

/-- C2: on a fresh queue of capacity `C ≥ 1`, for any completed sequence of calls the
values delivered by the successful pops are, in order, a prefix of the values accepted by
the successful pushes. -/
theorem C2_fifo_order [CppValue T] (k : FreeRTOSConfig) (C : Nat) (hC : 1 ≤ C)
    (cs : List (Call T)) (os : List (Outcome T))
    (hrun : runCalls k (mkQueue C) cs = some os) :
    delivered os <+: accepted os := by
  have h := (runCalls_ring k cs (mkQueue C) os (Ring_mkQueue C hC) hrun).2
  rw [contents_mkQueue, List.nil_append] at h
  exact ⟨_, h.symm⟩

theorem C2_fifo_order_witness :
    1 ≤ 2 ∧ runCalls exampleConfig (mkQueue 2) exampleCalls = some exampleOutcomes ∧
      delivered exampleOutcomes = [7, 8, 9] ∧
      delivered exampleOutcomes <+: accepted exampleOutcomes :=
  ⟨by decide, by decide, by decide,
    C2_fifo_order exampleConfig 2 (by decide) exampleCalls exampleOutcomes (by decide)⟩

/-- C3: `Pop` with timeout 0 returns false when no item is available, and `Push` (copy and
move form) with timeout 0 returns false when no slot is free. -/
theorem C3_zero_timeout_failure [CppValue T] (k : FreeRTOSConfig) (q : Queue T) (item : T) :
    (ItemWaiting q = 0 → (Pop k q item 0).map Prod.fst = some false) ∧
    (SpacesAvailable q = 0 →
      (Push k q item 0).map Prod.fst = some false ∧
      (PushMove k q item 0).map Prod.fst = some false) := by
  constructor
  · intro h
    have h0 : ¬ 0 < q.freertos_pop_queue.uxMessagesWaiting := by
      simp only [ItemWaiting, uxQueueMessagesWaiting] at h; omega
    simp [Pop, xQueueReceive_zero_empty k _ h0, empty_ne_pass]
  · intro h
    have h0 : ¬ q.freertos_push_queue.uxMessagesWaiting < q.freertos_push_queue.uxLength := by
      simp only [SpacesAvailable, uxQueueSpacesAvailable] at h; omega
    have hp : Push k q item 0 = some (false, q) := by
      rw [Push_zero_eq_FromISR, Push_FromISR_full q item h0]
    have hm := PushMove_eq_Push k q item 0
    rw [hp] at hm
    refine ⟨by rw [hp]; rfl, ?_⟩
    cases hpm : PushMove k q item 0 with
    | none => rw [hpm] at hm; simp at hm
    | some r =>
      rw [hpm] at hm
      simp only [Option.map_some', Option.some.injEq, Prod.mk.injEq] at hm
      simp [hm.1]

theorem C3_zero_timeout_failure_witness :
    (ItemWaiting (mkQueue 2 : Queue Nat) = 0 ∧
      (Pop exampleConfig (mkQueue 2 : Queue Nat) 5 0).map Prod.fst = some false) ∧
    (SpacesAvailable exampleFull = 0 ∧
      (Push exampleConfig exampleFull 5 0).map Prod.fst = some false ∧
      (PushMove exampleConfig exampleFull 5 0).map Prod.fst = some false) :=
  ⟨⟨by decide, (C3_zero_timeout_failure exampleConfig (mkQueue 2) 5).1 (by decide)⟩,
   ⟨by decide, (C3_zero_timeout_failure exampleConfig exampleFull 5).2 (by decide)⟩⟩

/-- C4: on a fresh queue of capacity 4, pushing A, B, C, D succeeds, `Push(E, 0)` fails,
`Pop` yields A, `Push(E, 0)` then succeeds and the next four pops yield B, C, D, E. -/
theorem C4_capacity_four_scenario [CppValue T] (k : FreeRTOSConfig) (a b c d e x : T)
    (w : TickType_t) :
    (runCalls k (mkQueue 4)
      [.Push a w, .Push b w, .Push c w, .Push d w, .Push e 0, .Pop x w, .Push e 0,
        .Pop x w, .Pop x w, .Pop x w, .Pop x w]).map
      (fun os => os.map fun o => (o.success, o.item)) =
    some [(true, a), (true, b), (true, c), (true, d), (false, e), (true, a), (true, e),
      (true, b), (true, c), (true, d), (true, e)] := by
  simp [runCalls, runCall, Push_pass, Pop_pass, Push_zero_eq_FromISR, Push_FromISR_pass,
    Push_FromISR_full, pushed, popped, mkQueue, xQueueCreate, slot]

/-- C5: on an empty queue of capacity `C`, `C` pushes (of any form) followed by `C` pops
all succeed and leave `in` and `out` at the values they had before the first push. -/
theorem C5_wraparound [CppValue T] (k : FreeRTOSConfig) (q : Queue T)
    (pushes pops : List (Call T)) (hq : Quiescent q) (hempty : ItemWaiting q = 0)
    (hpushes : ∀ c ∈ pushes, c.isPop = false) (hpops : ∀ c ∈ pops, c.isPop = true)
    (hn : pushes.length = q.size) (hm : pops.length = q.size) :
    ∃ os, runCalls k q (pushes ++ pops) = some os ∧
      os.length = q.size + q.size ∧
      (∀ o ∈ os, o.success = true) ∧
      (lastState q os).«in» = q.«in» ∧
      (lastState q os).out = q.out := by
  obtain ⟨os1, hos1, hs1, hq1, hsz1, hout1, hin1, hc1⟩ :=
    runCalls_pushes k pushes q hq hpushes (by omega)
  obtain ⟨os2, hos2, hs2, hq2, hsz2, hin2, hout2, hc2⟩ :=
    runCalls_pops k pops (lastState q os1) hq1 hpops (by omega)
  obtain ⟨happ, hlast⟩ := runCalls_append k pushes pops q os1 os2 hos1 hos2
  obtain ⟨⟨h1, h2, h3, h4, h5, h6, h7⟩, h8⟩ := hq
  refine ⟨os1 ++ os2, happ, ?_, ?_, ?_, ?_⟩
  · rw [runCalls_length k _ q _ happ, List.length_append, hn, hm]
  · intro o ho
    rcases List.mem_append.mp ho with h | h
    · exact hs1 o h
    · exact hs2 o h
  · rw [hlast, hin2, hin1, hn]
    simp only [wrap]
    split_ifs <;> omega
  · rw [hlast, hout2, hout1, hsz1, hm]
    simp only [wrap]
    split_ifs <;> omega

theorem C5_wraparound_witness :
    Quiescent (mkQueue 3 : Queue Nat) ∧ ItemWaiting (mkQueue 3 : Queue Nat) = 0 ∧
      ∃ os, runCalls exampleConfig (mkQueue 3 : Queue Nat)
          ([.Push 1 0, .PushMove 2 4, .Push_FromISR 3] ++ [.Pop 0 0, .Pop 0 6, .Pop 0 0]) =
            some os ∧
        os.length = (mkQueue 3 : Queue Nat).size + (mkQueue 3 : Queue Nat).size ∧
        (∀ o ∈ os, o.success = true) ∧
        (lastState (mkQueue 3) os).«in» = (mkQueue 3 : Queue Nat).«in» ∧
        (lastState (mkQueue 3) os).out = (mkQueue 3 : Queue Nat).out :=
  ⟨by decide, by decide,
    C5_wraparound exampleConfig (mkQueue 3) [.Push 1 0, .PushMove 2 4, .Push_FromISR 3]
      [.Pop 0 0, .Pop 0 6, .Pop 0 0] (by decide) (by decide) (by decide) (by decide)
      (by decide) (by decide)⟩

/-- C6: in a well-formed state with a free slot, `Push` (copy and move form, any timeout)
returns true; slot `in_old` then holds the item, `in = (in_old + 1) mod N`, the other slots,
`out` and the capacity are unchanged, one free slot less and one available item more. -/
theorem C6_push_success_effect [CppValue T] (k : FreeRTOSConfig) (q : Queue T) (item : T)
    (wait : TickType_t) (hwf : WellFormed q) (hfree : 0 < SpacesAvailable q) :
    ∃ q1 : Queue T,
      Push k q item wait = some (true, q1) ∧
      (PushMove k q item wait).map (fun r => (r.1, r.2.1)) = some (true, q1) ∧
      q1.array_queue[q.«in»]? = some item ∧
      q1.«in» = (q.«in» + 1) % q.size ∧
      (∀ j, j ≠ q.«in» → q1.array_queue[j]? = q.array_queue[j]?) ∧
      q1.out = q.out ∧
      q1.size = q.size ∧
      SpacesAvailable q1 + 1 = SpacesAvailable q ∧
      ItemWaiting q1 = ItemWaiting q + 1 := by
  obtain ⟨h1, h2, h3, h4, h5, h6, h7⟩ := hwf
  simp only [SpacesAvailable, uxQueueSpacesAvailable] at hfree
  have hp : Push k q item wait = some (true, pushed q item) :=
    Push_pass k q item wait (by omega) (by omega)
  refine ⟨pushed q item, hp, ?_, ?_, ?_, ?_, rfl, rfl, ?_, ?_⟩
  · rw [PushMove_eq_Push, hp]
  · simp [pushed, List.getElem?_set_self, h3, h4]
  · simp only [pushed]
    split_ifs with h
    · have : q.«in» + 1 = q.size := by omega
      rw [this, Nat.mod_self]
    · rw [Nat.mod_eq_of_lt (by omega)]
  · intro j hj
    simp only [pushed]
    rw [List.getElem?_set_ne (Ne.symm hj)]
  · simp only [SpacesAvailable, uxQueueSpacesAvailable, pushed]; omega
  · simp only [ItemWaiting, uxQueueMessagesWaiting, pushed]

theorem C6_push_success_effect_witness :
    WellFormed exampleHalf ∧ 0 < SpacesAvailable exampleHalf ∧
    ∃ q1 : Queue Nat,
      Push exampleConfig exampleHalf 5 0 = some (true, q1) ∧
      (PushMove exampleConfig exampleHalf 5 0).map (fun r => (r.1, r.2.1)) = some (true, q1) ∧
      q1.array_queue[exampleHalf.«in»]? = some 5 ∧
      q1.«in» = (exampleHalf.«in» + 1) % exampleHalf.size ∧
      (∀ j, j ≠ exampleHalf.«in» → q1.array_queue[j]? = exampleHalf.array_queue[j]?) ∧
      q1.out = exampleHalf.out ∧
      q1.size = exampleHalf.size ∧
      SpacesAvailable q1 + 1 = SpacesAvailable exampleHalf ∧
      ItemWaiting q1 = ItemWaiting exampleHalf + 1 :=
  ⟨by decide, by decide,
    C6_push_success_effect exampleConfig exampleHalf 5 0 (by decide) (by decide)⟩

/-- C7: in a well-formed state with an available item, `Pop` (any timeout) returns true; the
caller's item is the old content of slot `out_old`, that slot then holds `T()`,
`out = (out_old + 1) mod N`, the other slots, `in` and the capacity are unchanged, one
available item less and one free slot more. -/
theorem C7_pop_success_effect [CppValue T] (k : FreeRTOSConfig) (q : Queue T) (item : T)
    (wait : TickType_t) (hwf : WellFormed q) (havail : 0 < ItemWaiting q) :
    ∃ (q1 : Queue T) (v : T),
      Pop k q item wait = some (true, q1, v) ∧
      q.array_queue[q.out]? = some v ∧
      q1.array_queue[q.out]? = some CppValue.T_default ∧
      q1.out = (q.out + 1) % q.size ∧
      (∀ j, j ≠ q.out → q1.array_queue[j]? = q.array_queue[j]?) ∧
      q1.«in» = q.«in» ∧
      q1.size = q.size ∧
      ItemWaiting q1 + 1 = ItemWaiting q ∧
      SpacesAvailable q1 = SpacesAvailable q + 1 := by
  obtain ⟨h1, h2, h3, h4, h5, h6, h7⟩ := hwf
  simp only [ItemWaiting, uxQueueMessagesWaiting] at havail
  have hp : Pop k q item wait = some (true, popped q, slot q q.out) :=
    Pop_pass k q item wait havail (by omega)
  refine ⟨popped q, slot q q.out, hp, ?_, ?_, ?_, ?_, rfl, rfl, ?_, ?_⟩
  · have hlt : q.out < q.array_queue.length := by omega
    simp [slot, List.getD_eq_getElem?_getD, List.getElem?_eq_getElem hlt]
  · simp [popped, List.getElem?_set_self, h3, h5]
  · simp only [popped]
    split_ifs with h
    · have : q.out + 1 = q.size := by omega
      rw [this, Nat.mod_self]
    · rw [Nat.mod_eq_of_lt (by omega)]
  · intro j hj
    simp only [popped]
    rw [List.getElem?_set_ne (Ne.symm hj)]
  · simp only [ItemWaiting, uxQueueMessagesWaiting, popped]; omega
  · simp only [SpacesAvailable, uxQueueSpacesAvailable, popped]; omega

theorem C7_pop_success_effect_witness :
    WellFormed exampleHalf ∧ 0 < ItemWaiting exampleHalf ∧
    ∃ (q1 : Queue Nat) (v : Nat),
      Pop exampleConfig exampleHalf 5 0 = some (true, q1, v) ∧
      exampleHalf.array_queue[exampleHalf.out]? = some v ∧
      q1.array_queue[exampleHalf.out]? = some CppValue.T_default ∧
      q1.out = (exampleHalf.out + 1) % exampleHalf.size ∧
      (∀ j, j ≠ exampleHalf.out → q1.array_queue[j]? = exampleHalf.array_queue[j]?) ∧
      q1.«in» = exampleHalf.«in» ∧
      q1.size = exampleHalf.size ∧
      ItemWaiting q1 + 1 = ItemWaiting exampleHalf ∧
      SpacesAvailable q1 = SpacesAvailable exampleHalf + 1 :=
  ⟨by decide, by decide,
    C7_pop_success_effect exampleConfig exampleHalf 5 0 (by decide) (by decide)⟩

/-- C8: for every queue state and item, `Push_FromISR` (copy and move form) and the move
form of `Push` with timeout 0 return the same boolean and leave the same queue as the copy
form `Push(item, 0)`; on a queue without a free slot `Push_FromISR` returns false. -/
theorem C8_push_forms_agree [CppValue T] (k : FreeRTOSConfig) (q : Queue T) (item : T) :
    some (Push_FromISR q item) = Push k q item 0 ∧
    some ((Push_FromISRMove q item).1, (Push_FromISRMove q item).2.1) = Push k q item 0 ∧
    (PushMove k q item 0).map (fun r => (r.1, r.2.1)) = Push k q item 0 ∧
    (SpacesAvailable q = 0 →
      (Push_FromISR q item).1 = false ∧ (Push_FromISRMove q item).1 = false) := by
  refine ⟨(Push_zero_eq_FromISR k q item).symm, ?_, PushMove_eq_Push k q item 0, ?_⟩
  · rw [Push_FromISRMove_eq, Push_zero_eq_FromISR]
  · intro h
    have h0 : ¬ q.freertos_push_queue.uxMessagesWaiting < q.freertos_push_queue.uxLength := by
      simp only [SpacesAvailable, uxQueueSpacesAvailable] at h; omega
    have hm := Push_FromISRMove_eq q item
    rw [Push_FromISR_full q item h0] at hm ⊢
    simp only [Prod.mk.injEq] at hm
    exact ⟨rfl, hm.1⟩

theorem C8_push_forms_agree_witness :
    SpacesAvailable exampleFull = 0 ∧
      (Push_FromISR exampleFull 5).1 = false ∧ (Push_FromISRMove exampleFull 5).1 = false :=
  ⟨by decide, (C8_push_forms_agree exampleConfig exampleFull 5).2.2.2 (by decide)⟩

/-- C9: when the step function returns not-done on its first `K - 1` invocations and done
on its `K`-th, and nobody else requests deletion, `RunTask` returns (given fuel for `K`
iterations) after exactly `K` invocations with deletion-requested and terminated both true. -/
theorem C9_self_termination {σ : Type} (k : FreeRTOSConfig) (Run : σ → Bool × σ) (s : σ)
    (t : TaskFreeRtos) (K : Nat) (hK : 1 ≤ K)
    (hnot : ∀ i, i + 1 < K → stepResult Run s i = false)
    (hdone : stepResult Run s (K - 1) = true)
    (hreq : t.request_to_delete_task = false) (fuel : Nat) (hfuel : K ≤ fuel) :
    ∃ r : RunResult σ,
      RunTask k Run (fun _ => false) fuel t s = some r ∧
      r.invocations = K ∧
      r.state = stepState Run s K ∧
      r.task.request_to_delete_task = true ∧
      r.task.task_terminated = true := by
  have h := runLoop_done Run s K hnot hdone fuel 0 t (by omega) (by omega) hreq
  simp only [stepState] at h
  unfold RunTask
  rw [h]
  refine ⟨_, rfl, rfl, rfl, ?_, ?_⟩ <;> simp only [] <;> split_ifs <;> rfl

theorem C9_self_termination_witness :
    ∃ r : RunResult Nat,
      RunTask exampleConfig exampleRun (fun _ => false) 5 (mkTaskFreeRtos true) 0 = some r ∧
      r.invocations = 3 ∧
      r.state = stepState exampleRun 0 3 ∧
      r.task.request_to_delete_task = true ∧
      r.task.task_terminated = true :=
  C9_self_termination exampleConfig exampleRun 0 (mkTaskFreeRtos true) 3 (by decide)
    (fun i hi => by
      have hlt : i < 2 := by omega
      interval_cases i <;> rfl)
    rfl rfl 5 (by decide)

/-- C10: on a lifecycle whose terminated flag is true, whatever the scheduler-started flag,
`ExitFromTask` returns at once (no loop iteration), issues no runtime call and changes no
flag. -/
theorem C10_teardown_after_termination (k : FreeRTOSConfig) (env : TargetEnv) (fuel : Nat)
    (t : TaskFreeRtos) (hterm : t.task_terminated = true) :
    ExitFromTask k env fuel t = some t := by
  simp [ExitFromTask, hterm]

theorem C10_teardown_after_termination_witness :
    exampleTerminated.task_terminated = true ∧
      ExitFromTask exampleConfig exampleEnv 0 exampleTerminated = some exampleTerminated :=
  ⟨rfl, C10_teardown_after_termination exampleConfig exampleEnv 0 exampleTerminated rfl⟩

/-- C11: evaluation at the failing input.  Before the scheduler has started, on a kernel
built with `vTaskDelete`, a first `ExitFromTask` on a fresh lifecycle returns with
`task_terminated` still false, and the second one deletes the execution context again. -/
theorem C11_second_teardown_deletes_again (env : TargetEnv) (fuel : Nat) :
    ExitFromTask exampleConfig env fuel (mkTaskFreeRtos false) =
      some { task_terminated := false, request_to_delete_task := false,
             scheduler_is_running := false, calls := [.vTaskDelete_handle] } ∧
    ExitFromTask exampleConfig env fuel
        { task_terminated := false, request_to_delete_task := false,
          scheduler_is_running := false, calls := [.vTaskDelete_handle] } =
      some { task_terminated := false, request_to_delete_task := false,
             scheduler_is_running := false,
             calls := [.vTaskDelete_handle, .vTaskDelete_handle] } := by
  constructor <;> rfl

/-- C12: evaluation at the failing input.  Before the scheduler has started `ExitFromTask`
on a fresh lifecycle returns with `task_terminated` still false, whatever the kernel
configuration. -/
theorem C12_terminated_flag_stays_false (k : FreeRTOSConfig) (env : TargetEnv) (fuel : Nat) :
    ∃ r, ExitFromTask k env fuel (mkTaskFreeRtos false) = some r ∧
      r.task_terminated = false := by
  refine ⟨_, rfl, ?_⟩
  simp only [mkTaskFreeRtos, TaskFreeRtos.call]
  split_ifs <;> rfl

/-- C13 as stated fails: on a kernel built without `vTaskDelete`, teardown before the
scheduler has started does not delete the execution context. -/
theorem C13_counterexample :
    ¬ (∀ (k : FreeRTOSConfig) (env : TargetEnv) (fuel : Nat) (t : TaskFreeRtos),
        t.task_terminated = false → t.scheduler_is_running = false →
        ∃ r, ExitFromTask k env fuel t = some r ∧
          r.calls = t.calls ++ [RtosCall.vTaskDelete_handle]) := by
  intro h
  obtain ⟨r, hr, hc⟩ := h exampleConfigNoDelete exampleEnv 0 (mkTaskFreeRtos false) rfl rfl
  have hr2 : ExitFromTask exampleConfigNoDelete exampleEnv 0 (mkTaskFreeRtos false) =
      some (mkTaskFreeRtos false) := rfl
  rw [hr2] at hr
  simp only [Option.some.injEq] at hr
  subst hr
  simp [mkTaskFreeRtos] at hc

/-- C13 amended: on a non-terminated lifecycle, before the scheduler has started,
`ExitFromTask` returns without any loop iteration (no fuel needed), changes no flag, issues
no resume, abort-delay or delay call, and issues exactly one `vTaskDelete(task_handle)` when
the kernel is built with `INCLUDE_vTaskDelete == 1` and no call at all otherwise. -/
theorem C13_synchronous_teardown (k : FreeRTOSConfig) (env : TargetEnv) (fuel : Nat)
    (t : TaskFreeRtos) (hterm : t.task_terminated = false)
    (hsched : t.scheduler_is_running = false) :
    ∃ r, ExitFromTask k env fuel t = some r ∧
      ExitFromTask k env 0 t = some r ∧
      r.calls =
        t.calls ++ (if k.INCLUDE_vTaskDelete = true then [RtosCall.vTaskDelete_handle] else []) ∧
      r.task_terminated = t.task_terminated ∧
      r.request_to_delete_task = t.request_to_delete_task ∧
      r.scheduler_is_running = t.scheduler_is_running := by
  simp only [ExitFromTask, hterm, hsched, Bool.false_eq_true, if_false, if_true]
  refine ⟨_, rfl, rfl, ?_, ?_, ?_, ?_⟩ <;>
    by_cases hk : k.INCLUDE_vTaskDelete = true <;> simp [hk, TaskFreeRtos.call, hterm, hsched]

theorem C13_synchronous_teardown_witness :
    ∃ r, ExitFromTask exampleConfig exampleEnv 3 (mkTaskFreeRtos false) = some r ∧
      ExitFromTask exampleConfig exampleEnv 0 (mkTaskFreeRtos false) = some r ∧
      r.calls =
        (mkTaskFreeRtos false).calls ++
          (if exampleConfig.INCLUDE_vTaskDelete = true then [RtosCall.vTaskDelete_handle]
            else []) ∧
      r.task_terminated = (mkTaskFreeRtos false).task_terminated ∧
      r.request_to_delete_task = (mkTaskFreeRtos false).request_to_delete_task ∧
      r.scheduler_is_running = (mkTaskFreeRtos false).scheduler_is_running :=
  C13_synchronous_teardown exampleConfig exampleEnv 3 (mkTaskFreeRtos false) rfl rfl

/-- C14: on a non-terminated lifecycle with the scheduler running, `ExitFromTask` enters its
loop with `request_to_delete_task` already set and no runtime call issued yet (the loop's
first call is the resume); whenever it returns, `task_terminated` and
`request_to_delete_task` are both true; as long as the target has not terminated it does
not return; once the target terminates it does return. -/
theorem C14_teardown_with_scheduler (k : FreeRTOSConfig) (env : TargetEnv) (fuel : Nat)
    (t : TaskFreeRtos) (hterm : t.task_terminated = false)
    (hsched : t.scheduler_is_running = true) :
    ExitFromTask k env fuel t =
      exitLoop k env fuel 0 { t with request_to_delete_task := true } ∧
    (∀ r, ExitFromTask k env fuel t = some r →
      r.task_terminated = true ∧ r.request_to_delete_task = true ∧
      ∃ rest, r.calls = t.calls ++ RtosCall.vTaskResume :: rest) ∧
    ((∀ i, i < fuel → env.terminated_by i = false) → ExitFromTask k env fuel t = none) ∧
    (∀ n, n < fuel → env.terminated_by n = true → ∃ r, ExitFromTask k env fuel t = some r) := by
  have heq : ExitFromTask k env fuel t =
      exitLoop k env fuel 0 { t with request_to_delete_task := true } := by
    simp [ExitFromTask, hterm, hsched]
  refine ⟨heq, ?_, ?_, ?_⟩
  · intro r hr
    rw [heq] at hr
    obtain ⟨h1, h2, _, n, hn1, _, h4⟩ := exitLoop_some k env fuel 0 _ r hr
    refine ⟨h1, h2, ?_⟩
    obtain ⟨m, rfl⟩ : ∃ m, n = m + 1 := ⟨n - 1, by omega⟩
    rw [h4]
    refine ⟨[RtosCall.xTaskAbortDelay, RtosCall.uxTaskPriorityGet_handle,
      RtosCall.uxTaskPriorityGet_NULL] ++
      ((if env.GetPriority 0 ≤ env.GetPriorityCurrentTask 0 then
          [RtosCall.vTaskDelay (k.pdMS_TO_TICKS 10)] else []) ++
        teardownCalls k env 1 m), ?_⟩
    simp [teardownCalls, teardownIterationCalls]
  · intro henv
    rw [heq]
    exact exitLoop_none k env fuel 0 _ hterm (fun j _ hj => henv j (by omega))
  · intro n hn hn2
    rw [heq]
    exact exitLoop_returns k env n hn2 fuel 0 _ (Nat.zero_le n) (by omega)

theorem C14_teardown_with_scheduler_witness :
    ∃ r, ExitFromTask exampleConfig exampleEnvTerminating 5 (mkTaskFreeRtos true) = some r ∧
      r.task_terminated = true ∧ r.request_to_delete_task = true :=
  have h := C14_teardown_with_scheduler exampleConfig exampleEnvTerminating 5
    (mkTaskFreeRtos true) rfl rfl
  match h.2.2.2 1 (by decide) rfl with
  | ⟨r, hr⟩ => ⟨r, hr, (h.2.1 r hr).1, (h.2.1 r hr).2.1⟩

/-- C16: every iteration of the teardown loop logs exactly the calls of
`teardownIterationCalls` (resume, abort-delay, the two priority reads, then
`Delay(pdMS_TO_TICKS(10))` if and only if the target's priority is at most the caller's)
before it reads `task_terminated`; so a teardown that returns with the scheduler running
has logged these calls for its iterations 0, 1, ..., and nothing else. -/
theorem C16_teardown_iteration (k : FreeRTOSConfig) (env : TargetEnv) (fuel i : Nat)
    (t : TaskFreeRtos) :
    (exitLoop k env (fuel + 1) i t =
      if (t.task_terminated || env.terminated_by i) = false then
        exitLoop k env fuel (i + 1)
          { t with
            calls := t.calls ++ teardownIterationCalls k env i
            task_terminated := t.task_terminated || env.terminated_by i }
      else
        some
          { t with
            calls := t.calls ++ teardownIterationCalls k env i
            task_terminated := t.task_terminated || env.terminated_by i }) ∧
    (∀ r, t.task_terminated = false → t.scheduler_is_running = true →
      ExitFromTask k env fuel t = some r →
      ∃ n, 1 ≤ n ∧ n ≤ fuel ∧ r.calls = t.calls ++ teardownCalls k env 0 n) ∧
    (env.GetPriority i ≤ env.GetPriorityCurrentTask i →
      teardownIterationCalls k env i =
        [.vTaskResume, .xTaskAbortDelay, .uxTaskPriorityGet_handle, .uxTaskPriorityGet_NULL,
          .vTaskDelay (k.pdMS_TO_TICKS 10)]) ∧
    (env.GetPriorityCurrentTask i < env.GetPriority i →
      teardownIterationCalls k env i =
        [.vTaskResume, .xTaskAbortDelay, .uxTaskPriorityGet_handle,
          .uxTaskPriorityGet_NULL]) := by
  refine ⟨exitLoop_step k env fuel i t, ?_, ?_, ?_⟩
  · intro r hterm hsched hr
    have heq : ExitFromTask k env fuel t =
        exitLoop k env fuel 0 { t with request_to_delete_task := true } := by
      simp [ExitFromTask, hterm, hsched]
    rw [heq] at hr
    obtain ⟨_, _, _, n, hn1, hn2, h4⟩ := exitLoop_some k env fuel 0 _ r hr
    exact ⟨n, hn1, hn2, h4⟩
  · intro h
    simp [teardownIterationCalls, h]
  · intro h
    have h2 : ¬ env.GetPriority i ≤ env.GetPriorityCurrentTask i := Nat.not_le.mpr h
    simp [teardownIterationCalls, h2]

theorem C16_teardown_iteration_witness :
    (∃ r, ExitFromTask exampleConfig exampleEnvTerminating 5 (mkTaskFreeRtos true) = some r ∧
      ∃ n, 1 ≤ n ∧ n ≤ 5 ∧
        r.calls = (mkTaskFreeRtos true).calls ++
          teardownCalls exampleConfig exampleEnvTerminating 0 n) ∧
    teardownIterationCalls exampleConfig exampleEnvTerminating 1 =
      [.vTaskResume, .xTaskAbortDelay, .uxTaskPriorityGet_handle, .uxTaskPriorityGet_NULL,
        .vTaskDelay (exampleConfig.pdMS_TO_TICKS 10)] ∧
    teardownIterationCalls exampleConfig exampleEnvTerminating 0 =
      [.vTaskResume, .xTaskAbortDelay, .uxTaskPriorityGet_handle, .uxTaskPriorityGet_NULL] :=
  ⟨⟨_, rfl,
      (C16_teardown_iteration exampleConfig exampleEnvTerminating 5 0
        (mkTaskFreeRtos true)).2.1 _ rfl rfl rfl⟩,
    (C16_teardown_iteration exampleConfig exampleEnvTerminating 5 1
      (mkTaskFreeRtos true)).2.2.1 (by decide),
    (C16_teardown_iteration exampleConfig exampleEnvTerminating 5 0
      (mkTaskFreeRtos true)).2.2.2 (by decide)⟩

/-- C17: let `K` be the first invocation (from 0) of the step function at whose return the
step has returned done or `request_to_delete_task` reads true.  Then `RunTask`, given fuel
for `K + 1` iterations, returns after exactly `K + 1` invocations with `task_terminated` and
`request_to_delete_task` set.  In particular, when deletion was requested before the first
iteration the step is invoked exactly once. -/
theorem C17_run_loop_stops {σ : Type} (k : FreeRTOSConfig) (Run : σ → Bool × σ)
    (ext : Nat → Bool) (s : σ) (t : TaskFreeRtos) (K fuel : Nat)
    (hbefore : ∀ j, j < K → stepResult Run s j = false ∧ requestSeen t ext j = false)
    (hstop : stepResult Run s K = true ∨ requestSeen t ext K = true)
    (hfuel : K < fuel) :
    ∃ r : RunResult σ,
      RunTask k Run ext fuel t s = some r ∧
      r.invocations = K + 1 ∧
      r.state = stepState Run s (K + 1) ∧
      r.task.task_terminated = true ∧
      r.task.request_to_delete_task = true ∧
      (t.request_to_delete_task = true → r.invocations = 1) := by
  have hK0 : t.request_to_delete_task = true → K = 0 := by
    intro hreq
    by_contra hne
    have h0 := (hbefore 0 (by omega)).2
    simp [requestSeen, hreq] at h0
  have hcore : runLoop Run ext fuel 0 t (stepState Run s 0) =
      some ⟨{ t with request_to_delete_task := true }, stepState Run s (K + 1), K + 1⟩ := by
    apply runLoop_stops Run ext s K fuel 0 t (Nat.zero_le K) (by omega)
    · intro j _ hj
      obtain ⟨h1, h2⟩ := hbefore j hj
      exact ⟨h1, (requestSeen_false t ext j h2).2 j (le_refl j)⟩
    · intro hpos
      exact (requestSeen_false t ext 0 (hbefore 0 hpos).2).1
    · rcases hstop with h | h
      · exact Or.inl h
      · cases K with
        | zero =>
          simp only [requestSeen, Bool.or_eq_true] at h
          rcases h with h | h
          · exact Or.inr (Or.inr ⟨rfl, h⟩)
          · exact Or.inr (Or.inl h)
        | succ n =>
          simp only [requestSeen, Bool.or_eq_true] at h
          rcases h with h | h
          · rw [(hbefore n (by omega)).2] at h; cases h
          · exact Or.inr (Or.inl h)
  simp only [stepState] at hcore
  unfold RunTask
  rw [hcore]
  refine ⟨_, rfl, rfl, rfl, ?_, ?_, ?_⟩
  · simp only []; split_ifs <;> rfl
  · simp only []; split_ifs <;> rfl
  · intro hreq
    simp only [hK0 hreq]

theorem C17_run_loop_stops_witness :
    (∃ r : RunResult Nat,
      RunTask exampleConfig (fun n => (false, n + 1)) (fun _ => false) 4
        { mkTaskFreeRtos true with request_to_delete_task := true } 0 = some r ∧
      r.invocations = 1 ∧ r.task.task_terminated = true) ∧
    (∃ r : RunResult Nat,
      RunTask exampleConfig (fun n => (false, n + 1)) (fun i => decide (2 ≤ i)) 4
        (mkTaskFreeRtos true) 0 = some r ∧
      r.invocations = 2 + 1 ∧ r.task.task_terminated = true) :=
  ⟨match C17_run_loop_stops exampleConfig (fun n => (false, n + 1)) (fun _ => false) 0
      { mkTaskFreeRtos true with request_to_delete_task := true } 0 4
      (fun j hj => absurd hj (Nat.not_lt_zero j)) (Or.inr rfl) (by decide) with
    | ⟨r, h1, _, _, h4, _, h6⟩ => ⟨r, h1, h6 rfl, h4⟩,
   match C17_run_loop_stops exampleConfig (fun n => (false, n + 1)) (fun i => decide (2 ≤ i)) 0
      (mkTaskFreeRtos true) 2 4
      (fun j hj => by
        have hlt : j < 2 := hj
        interval_cases j <;> exact ⟨rfl, rfl⟩)
      (Or.inr rfl) (by decide) with
    | ⟨r, h1, h2, _, h4, _, _⟩ => ⟨r, h1, h2, h4⟩⟩

/-- C18: on a fresh queue of capacity `N ≥ 1`, before the first call and after each call of
any completed sequence of calls, `in < N`, `out < N` and the storage has `N` slots, so
`array_queue[in]` and `array_queue[out]` are inside the storage. -/
theorem C18_cursors_in_bounds [CppValue T] (k : FreeRTOSConfig) (N : Nat) (hN : 1 ≤ N)
    (cs : List (Call T)) (os : List (Outcome T))
    (hrun : runCalls k (mkQueue N) cs = some os) :
    ((mkQueue N : Queue T).«in» < N ∧ (mkQueue N : Queue T).out < N ∧
      (mkQueue N : Queue T).array_queue.length = N) ∧
    ∀ o ∈ os, o.after.«in» < N ∧ o.after.out < N ∧ o.after.array_queue.length = N := by
  have hsize : (mkQueue N : Queue T).size = N := rfl
  constructor
  · have hr : Ring (mkQueue N : Queue T) := Ring_mkQueue N hN
    obtain ⟨⟨⟨_, _, h3, h4, h5, _, _⟩, _⟩, _⟩ := hr
    rw [hsize] at h3 h4 h5
    exact ⟨h4, h5, h3⟩
  · intro o ho
    obtain ⟨hr, hs⟩ := (runCalls_ring k cs (mkQueue N) os (Ring_mkQueue N hN) hrun).1 o ho
    obtain ⟨⟨⟨_, _, h3, h4, h5, _, _⟩, _⟩, _⟩ := hr
    rw [hs, hsize] at h3 h4 h5
    exact ⟨h4, h5, h3⟩

theorem C18_cursors_in_bounds_witness :
    1 ≤ 2 ∧ runCalls exampleConfig (mkQueue 2) exampleCalls = some exampleOutcomes ∧
    ((mkQueue 2 : Queue Nat).«in» < 2 ∧ (mkQueue 2 : Queue Nat).out < 2 ∧
      (mkQueue 2 : Queue Nat).array_queue.length = 2) ∧
    ∀ o ∈ exampleOutcomes, o.after.«in» < 2 ∧ o.after.out < 2 ∧ o.after.array_queue.length = 2 :=
  ⟨by decide, by decide,
    C18_cursors_in_bounds exampleConfig 2 (by decide) exampleCalls exampleOutcomes
      (by decide)⟩

/-- C19: a `Push` (copy or move form), a `Push_FromISR` (copy or move form) or a `Pop` that
returns false leaves the whole queue (slots, cursors, both permit counts) as it was; a
failed `Pop`, and a failed move-form push, also leave the caller's item as it was. -/
theorem C19_failed_call_changes_nothing [CppValue T] (k : FreeRTOSConfig) (q : Queue T)
    (item : T) (wait : TickType_t) :
    (∀ q1, Push k q item wait = some (false, q1) → q1 = q) ∧
    (∀ q1 it, PushMove k q item wait = some (false, q1, it) → q1 = q ∧ it = item) ∧
    (∀ q1, Push_FromISR q item = (false, q1) → q1 = q) ∧
    (∀ q1 it, Push_FromISRMove q item = (false, q1, it) → q1 = q ∧ it = item) ∧
    (∀ q1 it, Pop k q item wait = some (false, q1, it) → q1 = q ∧ it = item) := by
  refine ⟨?_, fun q1 it h => PushMove_false k q q1 item it wait h, ?_,
    fun q1 it h => Push_FromISRMove_false q q1 item it h, ?_⟩
  · intro q1 h
    by_cases h1 : q.freertos_push_queue.uxMessagesWaiting < q.freertos_push_queue.uxLength
    · by_cases h2 : q.freertos_pop_queue.uxMessagesWaiting < q.freertos_pop_queue.uxLength
      · rw [Push_pass k q item wait h1 h2] at h; simp at h
      · unfold Push at h
        rw [xQueueSendToBack_pass k _ wait h1] at h
        simp only [pass_eq_pass, if_true, xQueueSendToBack_zero] at h
        simp at h
    · rcases Push_full k q item wait h1 with hp | hp <;> rw [hp] at h
      · simp at h
      · simp only [Option.some.injEq, Prod.mk.injEq, true_and] at h
        exact h.symm
  · intro q1 h
    by_cases h1 : q.freertos_push_queue.uxMessagesWaiting < q.freertos_push_queue.uxLength
    · unfold Push_FromISR at h
      simp [xQueueSendToBackFromISR, h1, pass_eq_pass] at h
    · rw [Push_FromISR_full q item h1] at h
      simp only [Prod.mk.injEq, true_and] at h
      exact h.symm
  · intro q1 it h
    by_cases h1 : 0 < q.freertos_pop_queue.uxMessagesWaiting
    · unfold Pop at h
      rw [xQueueReceive_pass k _ wait h1] at h
      simp only [pass_eq_pass, if_true, xQueueReceive_zero] at h
      simp at h
    · rcases Pop_empty k q item wait h1 with hp | hp <;> rw [hp] at h
      · simp at h
      · simp only [Option.some.injEq, Prod.mk.injEq, true_and] at h
        exact ⟨h.1.symm, h.2.symm⟩

theorem C19_failed_call_changes_nothing_witness :
    (Push exampleConfig exampleFull 5 3 = some (false, exampleFull) ∧ exampleFull = exampleFull) ∧
    (Pop exampleConfig (mkQueue 2) 5 0 = some (false, mkQueue 2, 5) ∧
      (mkQueue 2 : Queue Nat) = mkQueue 2 ∧ (5 : Nat) = 5) :=
  ⟨⟨by decide,
     (C19_failed_call_changes_nothing exampleConfig exampleFull 5 3).1 exampleFull
       (by decide)⟩,
   ⟨by decide,
     (C19_failed_call_changes_nothing exampleConfig (mkQueue 2) 5 0).2.2.2.2 (mkQueue 2) 5
       (by decide)⟩⟩

/-- C20: with `Push` and `Pop` split into their three atomic steps and interleaved in any
way from a fresh queue of capacity `N`, every reachable state has at most as many available
items as taken free-slot permits and at most `N` of them; the final release of a `Push`
that has written its slot and of a `Pop` that has read its slot returns `pdPASS`, and no
final release has failed so far. -/
theorem C20_releases_never_fail [CppValue T] (k : FreeRTOSConfig) (N : Nat)
    (as : List (Action T)) :
    ItemWaiting (runSystem k (mkSystem N : System T) as).queue ≤
      uxQueueMessagesWaiting (runSystem k (mkSystem N : System T) as).queue.freertos_push_queue ∧
    ItemWaiting (runSystem k (mkSystem N : System T) as).queue ≤ N ∧
    ItemWaiting (runSystem k (mkSystem N : System T) as).queue +
        (runSystem k (mkSystem N : System T) as).inflight.length +
        SpacesAvailable (runSystem k (mkSystem N : System T) as).queue = N ∧
    (runSystem k (mkSystem N : System T) as).failedReleases = 0 ∧
    (∀ i : Nat,
      (runSystem k (mkSystem N : System T) as).inflight[i]? = some InFlight.pushWritten →
      ∃ popq, xQueueSendToBack k
        (runSystem k (mkSystem N : System T) as).queue.freertos_pop_queue 0 =
          some (pdPASS, popq)) ∧
    (∀ (i : Nat) (it : T),
      (runSystem k (mkSystem N : System T) as).inflight[i]? = some (InFlight.popRead it) →
      ∃ pushq, xQueueReceive k
        (runSystem k (mkSystem N : System T) as).queue.freertos_push_queue 0 =
          some (pdPASS, pushq)) := by
  obtain ⟨h1, h2, h3, h4, h5⟩ := runSystem_inv k N as (mkSystem N) (SystemInv_mkSystem N)
  generalize runSystem k (mkSystem N : System T) as = s at h1 h2 h3 h4 h5 ⊢
  simp only [ItemWaiting, SpacesAvailable, uxQueueMessagesWaiting, uxQueueSpacesAvailable]
  refine ⟨by omega, by omega, by omega, h5, ?_, ?_⟩
  · intro i hi
    have hlt := getElem?_some_lt s.inflight i _ hi
    exact ⟨_, xQueueSendToBack_pass k _ 0 (by omega)⟩
  · intro i it hi
    have hlt := getElem?_some_lt s.inflight i _ hi
    exact ⟨_, xQueueReceive_pass k _ 0 (by omega)⟩

theorem C20_releases_never_fail_witness :
    (runSystem exampleConfig (mkSystem 2 : System Nat) (exampleActions.take 3)).inflight[1]? =
      some InFlight.pushWritten ∧
    ∃ popq, xQueueSendToBack exampleConfig
      (runSystem exampleConfig (mkSystem 2 : System Nat)
        (exampleActions.take 3)).queue.freertos_pop_queue 0 = some (pdPASS, popq) :=
  ⟨by decide,
    (C20_releases_never_fail exampleConfig 2 (exampleActions.take 3)).2.2.2.2.1 1
      (by decide)⟩

end freertos_obj
